import Mathlib

/-
Verification of the asynchronous loop primitive in
`3rdparty/libprocess/include/process/loop.hpp`.

The loop is embedded as an executable state machine.  A `Future` of the
runtime is modelled by `FutVal`: either still pending (carrying the outcome
its producer will eventually deliver, whether the producer honors a discard
request, and whether a discard request has been recorded on it) or settled
with a terminal `Outcome`.  The user-supplied `iterate` and `body` callables
are modelled by scripts (`Scripts`): the k-th invocation of `iterate` returns
a future described by `sc.it k`, and the k-th invocation of `body` on value
`v` returns a future described by `sc.bd k v`.

The state `M T` mirrors `internal::Loop<Iterate, Body, T>`: the promise
state of the outer future, its `hasDiscard` bit, the `future` and
`condition` slots, plus instrumentation (invocation counters, a chronological
trace of `iterate`/`body` invocations, the number of `onAny` subscriptions
created, and the number of `onDiscard` hooks registered on the outer future).

`run` is a line-by-line translation of `internal::run`; `condK` and `futK`
are the two `onAny` continuations it registers; `pump` is the actor's
serialized delivery of deferred continuations (an `onAny` on an
already-settled future fires immediately, deferred on `pid`); `boot` is the
bootstrap dispatch of `process::loop`; `applyEvent` delivers the external
events (a producer completing the pending future, or the caller requesting
discard on the outer future, which fires the single root `onDiscard` hook).
-/

set_option autoImplicit false

/-- Terminal outcome of a future: ready with a value, failed with a reason,
or discarded. -/
inductive Outcome (α : Type) where
  | ready (a : α)
  | failed (r : String)
  | discarded
deriving DecidableEq, Repr

/-- Script for one future returned by a user callable: whether it is already
settled when returned (`sync`), its eventual outcome, and whether its
producer honors a discard request recorded while it is pending. -/
structure FutSpec (α : Type) where
  sync : Bool
  out : Outcome α
  honors : Bool
deriving DecidableEq, Repr

/-- Model of a `process::Future`: pending (scripted outcome, discard-honoring
flag, recorded discard request) or settled with a terminal outcome. -/
inductive FutVal (α : Type) where
  | pending (out : Outcome α) (honors : Bool) (req : Bool)
  | settled (out : Outcome α)
deriving DecidableEq, Repr

/-- `Future::discard()`: records a discard request on a pending future and is
a no-op on a settled one. -/
def FutVal.discard {α : Type} : FutVal α → FutVal α
  | .pending o h _ => .pending o h true
  | .settled o => .settled o

/-- The producer of a pending future completes it: if a discard request was
recorded and the producer honors it, the future becomes discarded, otherwise
it settles with its scripted outcome.  No-op on a settled future. -/
def FutVal.wake {α : Type} : FutVal α → FutVal α
  | .pending o h r => .settled (if r && h then .discarded else o)
  | .settled o => .settled o

/-- Whether the future has reached a terminal state. -/
def FutVal.isSettled {α : Type} : FutVal α → Bool
  | .pending _ _ _ => false
  | .settled _ => true

/-- The future returned by a user callable, per its script entry. -/
def mkFut {α : Type} (s : FutSpec α) : FutVal α :=
  if s.sync then .settled s.out else .pending s.out s.honors false

/-- State of the outer promise (`Promise<Nothing>`). -/
inductive PromState where
  | pending
  | ready
  | failed (r : String)
  | discarded
deriving DecidableEq, Repr

/-- Which intermediate future the driver has subscribed an `onAny`
continuation to (at most one at a time). -/
inductive Waiting where
  | none
  | onCondition
  | onFuture
deriving DecidableEq, Repr

/-- Ghost trace entry: the k-th `iterate` invocation, or the k-th `body`
invocation together with the value it consumed. -/
inductive Ent (T : Type) where
  | iter (k : Nat)
  | bodyCall (k : Nat) (v : T)
deriving DecidableEq, Repr

/-- Scripts for the user callables: `it k` describes the future returned by
the k-th `iterate()` invocation, `bd k v` the future returned by the k-th
`body(v)` invocation. -/
structure Scripts (T : Type) where
  it : Nat → FutSpec T
  bd : Nat → T → FutSpec Bool

/-- Model of `internal::Loop` plus instrumentation. -/
structure M (T : Type) where
  promiseState : PromState
  hasDiscard : Bool
  future : FutVal T
  condition : FutVal Bool
  iterateCalls : Nat
  bodyCalls : Nat
  subs : Nat
  discardHooks : Nat
  waiting : Waiting
  trace : List (Ent T)
deriving DecidableEq, Repr

/-- `Promise::set(Nothing())`: settles the outer future ready; no-op once
settled. -/
def M.promiseSet {T : Type} (m : M T) : M T :=
  if m.promiseState = .pending then { m with promiseState := .ready } else m

/-- `Promise::fail(reason)`: settles the outer future failed; no-op once
settled. -/
def M.promiseFail {T : Type} (r : String) (m : M T) : M T :=
  if m.promiseState = .pending then { m with promiseState := .failed r } else m

/-- `Promise::discard()`: settles the outer future discarded; no-op once
settled. -/
def M.promiseDiscard {T : Type} (m : M T) : M T :=
  if m.promiseState = .pending then { m with promiseState := .discarded } else m

/-- `loop->future = loop->iterate();` — invoke the next `iterate` per its
script and store the returned future in the `future` slot. -/
def invokeIterate {T : Type} (sc : Scripts T) (m : M T) : M T :=
  { m with
    future := mkFut (sc.it m.iterateCalls)
    iterateCalls := m.iterateCalls + 1
    trace := m.trace ++ [.iter m.iterateCalls] }

/-- `if (loop->promise.future().hasDiscard()) loop->future.discard();` -/
def checkDiscardFuture {T : Type} (m : M T) : M T :=
  if m.hasDiscard then { m with future := m.future.discard } else m

/-- `loop->condition = loop->body(loop->future.get());` — invoke the next
`body` on the consumed value per its script and store the returned future in
the `condition` slot. -/
def invokeBody {T : Type} (sc : Scripts T) (v : T) (m : M T) : M T :=
  { m with
    condition := mkFut (sc.bd m.bodyCalls v)
    bodyCalls := m.bodyCalls + 1
    trace := m.trace ++ [.bodyCall m.bodyCalls v] }

/-- `if (loop->promise.future().hasDiscard()) loop->condition.discard();` -/
def checkDiscardCondition {T : Type} (m : M T) : M T :=
  if m.hasDiscard then { m with condition := m.condition.discard } else m

/-- The single root `onDiscard` callback of `process::loop`: request discard
on whatever futures currently occupy the `future` and `condition` slots. -/
def rootDiscard {T : Type} (m : M T) : M T :=
  { m with future := m.future.discard, condition := m.condition.discard }

/-- `internal::run`, translated line by line.  The `while` loop is the fuel
recursion; subscribing an `onAny` continuation records which slot is awaited
and increments the subscription counter. -/
def run {T : Type} (sc : Scripts T) : Nat → M T → M T
  | 0, m => m
  | fuel + 1, m =>
    match m.future with
    | .settled (.ready v) =>
      let m1 := checkDiscardCondition (invokeBody sc v m)
      match m1.condition with
      | .settled (.ready true) =>
        run sc fuel (checkDiscardFuture (invokeIterate sc m1))
      | .settled (.ready false) => m1.promiseSet
      | _ => { m1 with waiting := .onCondition, subs := m1.subs + 1 }
    | _ => { m with waiting := .onFuture, subs := m.subs + 1 }

/-- The `onAny` continuation `internal::run` subscribes to `loop->condition`
(deferred on `pid`). -/
def condK {T : Type} (sc : Scripts T) (fuel : Nat) (m : M T) : M T :=
  match m.condition with
  | .settled (.ready true) => run sc fuel (checkDiscardFuture (invokeIterate sc m))
  | .settled (.ready false) => m.promiseSet
  | .settled (.failed r) => m.promiseFail r
  | .settled .discarded => m.promiseDiscard
  | .pending _ _ _ => m

/-- The `onAny` continuation `internal::run` subscribes to `loop->future`
(deferred on `pid`). -/
def futK {T : Type} (sc : Scripts T) (fuel : Nat) (m : M T) : M T :=
  match m.future with
  | .settled (.ready _) => run sc fuel m
  | .settled (.failed r) => m.promiseFail r
  | .settled .discarded => m.promiseDiscard
  | .pending _ _ _ => m

/-- Serialized delivery on `pid` of deferred `onAny` continuations: while the
awaited slot is settled, the corresponding continuation fires. -/
def pump {T : Type} (sc : Scripts T) : Nat → M T → M T
  | 0, m => m
  | fuel + 1, m =>
    match m.waiting with
    | .none => m
    | .onCondition =>
      if m.condition.isSettled then
        pump sc fuel (condK sc fuel { m with waiting := .none })
      else m
    | .onFuture =>
      if m.future.isSettled then
        pump sc fuel (futK sc fuel { m with waiting := .none })
      else m

/-- State of the loop at construction: pending promise, default-constructed
(forever pending) slots, exactly one root `onDiscard` hook registered.  If a
discard was recorded on the outer future before the bootstrap dispatch runs
(`initD`), the `hasDiscard` bit is set and the root hook has already
requested discard on the (default) slots. -/
def startState (T : Type) (initD : Bool) : M T :=
  let m : M T :=
    { promiseState := .pending
      hasDiscard := initD
      future := .pending (.failed "") false false
      condition := .pending (.failed "") false false
      iterateCalls := 0
      bodyCalls := 0
      subs := 0
      discardHooks := 1
      waiting := .none
      trace := [] }
  if initD then rootDiscard m else m

/-- The bootstrap dispatch of `process::loop`:
`loop->future = loop->iterate(); if (hasDiscard) loop->future.discard();
internal::run(loop);` followed by delivery of any immediately-firing
continuations. -/
def boot {T : Type} (sc : Scripts T) (fuel : Nat) (initD : Bool) : M T :=
  pump sc fuel (run sc fuel (checkDiscardFuture (invokeIterate sc (startState T initD))))

/-- External events: the producer of the awaited pending future completes
it, or the caller requests discard on the outer future. -/
inductive Event where
  | wake
  | discardOuter
deriving DecidableEq, Repr

/-- The producer completes whichever pending future the driver awaits. -/
def wakeWaiting {T : Type} (m : M T) : M T :=
  match m.waiting with
  | .none => m
  | .onCondition => { m with condition := m.condition.wake }
  | .onFuture => { m with future := m.future.wake }

/-- Deliver one external event.  A discard request on the outer future is
recorded (and fires the root `onDiscard` hook) only while the outer future
is pending, as in `Future::discard()`. -/
def applyEvent {T : Type} (sc : Scripts T) (fuel : Nat) (m : M T) : Event → M T
  | .wake => pump sc fuel (wakeWaiting m)
  | .discardOuter =>
    if m.promiseState = .pending then rootDiscard { m with hasDiscard := true } else m

/-- A whole execution of `loop(pid, iterate, body)`: bootstrap, then the
given sequence of external events. -/
def execLoop {T : Type} (sc : Scripts T) (fuel : Nat) (initD : Bool)
    (events : List Event) : M T :=
  events.foldl (applyEvent sc fuel) (boot sc fuel initD)

/-- Number of `iterate` invocations recorded in a trace. -/
def countIter {T : Type} : List (Ent T) → Nat
  | [] => 0
  | .iter _ :: l => countIter l + 1
  | .bodyCall _ _ :: l => countIter l

/-- Number of `body` invocations recorded in a trace. -/
def countBody {T : Type} : List (Ent T) → Nat
  | [] => 0
  | .iter _ :: l => countBody l
  | .bodyCall _ _ :: l => countBody l + 1

/-- If the future is still pending, a discard request has been recorded on
it. -/
def pendReq {α : Type} : FutVal α → Prop
  | .pending _ _ r => r = true
  | .settled _ => True

/-- Some `iterate` invocation can produce a discarded future (its script
either returns a discarded outcome or honors discard requests). -/
def ItMayDiscard {T : Type} (sc : Scripts T) : Prop :=
  ∃ k, (sc.it k).out = .discarded ∨ (sc.it k).honors = true

/-- Some `body` invocation can produce a discarded future. -/
def BdMayDiscard {T : Type} (sc : Scripts T) : Prop :=
  ∃ k v, (sc.bd k v).out = .discarded ∨ (sc.bd k v).honors = true

/-- Machine invariant, preserved by bootstrap and every external event. -/
structure LoopInv {T : Type} (sc : Scripts T) (m : M T) : Prop where
  iterIdx : ∀ i k, m.trace.get? i = some (.iter k) → i = 2 * k
  bodyIdx : ∀ i k v, m.trace.get? i = some (.bodyCall k v) → i = 2 * k + 1
  bodyVal : ∀ i k v, m.trace.get? i = some (.bodyCall k v) → (sc.it k).out = .ready v
  traceLen : m.trace.length = m.iterateCalls + m.bodyCalls
  iterCount : countIter m.trace = m.iterateCalls
  bodyCount : countBody m.trace = m.bodyCalls
  futCons : ∀ o h r, m.future = .pending o h r →
    1 ≤ m.iterateCalls ∧ (sc.it (m.iterateCalls - 1)).out = o ∧
      (sc.it (m.iterateCalls - 1)).honors = h
  futReady : ∀ v, m.future = .settled (.ready v) →
    1 ≤ m.iterateCalls ∧ (sc.it (m.iterateCalls - 1)).out = .ready v
  futDisc : m.future = .settled .discarded → ItMayDiscard sc
  condCons : ∀ o h r, m.condition = .pending o h r →
    (o = .failed "" ∧ h = false) ∨ ∃ k v, (sc.bd k v).out = o ∧ (sc.bd k v).honors = h
  condDisc : m.condition = .settled .discarded → BdMayDiscard sc
  discSrc : m.promiseState = .discarded →
    m.future = .settled .discarded ∨ m.condition = .settled .discarded
  discReach : m.hasDiscard = true → pendReq m.future ∧ pendReq m.condition
  wFut : m.waiting = .onFuture → m.iterateCalls = m.bodyCalls + 1
  wCond : m.waiting = .onCondition → m.iterateCalls = m.bodyCalls
  quiet : m.promiseState ≠ .pending → m.waiting = .none
  hooks : m.discardHooks = 1

theorem get?_concat {α : Type} (l : List α) (e : α) (i : Nat) (x : α)
    (h : (l ++ [e]).get? i = some x) :
    l.get? i = some x ∨ (i = l.length ∧ x = e) := by
  rcases Nat.lt_trichotomy i l.length with hlt | heq | hgt
  · left
    rw [List.get?_append hlt] at h
    exact h
  · right
    subst heq
    rw [List.get?_concat_length] at h
    exact ⟨rfl, (Option.some.injEq _ _).mp h.symm⟩
  · exfalso
    have hlen : (l ++ [e]).length ≤ i := by
      simp only [List.length_append, List.length_singleton]
      omega
    rw [List.get?_eq_none.mpr hlen] at h
    exact Option.noConfusion h

theorem countIter_concat_iter {T : Type} (l : List (Ent T)) (k : Nat) :
    countIter (l ++ [Ent.iter k]) = countIter l + 1 := by
  induction l with
  | nil => rfl
  | cons e l ih => cases e <;> simp [countIter, ih]

theorem countIter_concat_body {T : Type} (l : List (Ent T)) (k : Nat) (v : T) :
    countIter (l ++ [Ent.bodyCall k v]) = countIter l := by
  induction l with
  | nil => rfl
  | cons e l ih => cases e <;> simp [countIter, ih]

theorem countBody_concat_iter {T : Type} (l : List (Ent T)) (k : Nat) :
    countBody (l ++ [Ent.iter k]) = countBody l := by
  induction l with
  | nil => rfl
  | cons e l ih => cases e <;> simp [countBody, ih]

theorem countBody_concat_body {T : Type} (l : List (Ent T)) (k : Nat) (v : T) :
    countBody (l ++ [Ent.bodyCall k v]) = countBody l + 1 := by
  induction l with
  | nil => rfl
  | cons e l ih => cases e <;> simp [countBody, ih]

theorem FutVal.discard_settled {α : Type} (o : Outcome α) :
    FutVal.discard (FutVal.settled o) = FutVal.settled o := rfl

theorem pendReq_discard {α : Type} (f : FutVal α) : pendReq f.discard := by
  cases f <;> simp [FutVal.discard, pendReq]

@[simp] theorem invokeIterate_future {T : Type} (sc : Scripts T) (m : M T) :
    (invokeIterate sc m).future = mkFut (sc.it m.iterateCalls) := rfl
@[simp] theorem invokeIterate_iterateCalls {T : Type} (sc : Scripts T) (m : M T) :
    (invokeIterate sc m).iterateCalls = m.iterateCalls + 1 := rfl
@[simp] theorem invokeIterate_trace {T : Type} (sc : Scripts T) (m : M T) :
    (invokeIterate sc m).trace = m.trace ++ [.iter m.iterateCalls] := rfl
@[simp] theorem invokeIterate_promiseState {T : Type} (sc : Scripts T) (m : M T) :
    (invokeIterate sc m).promiseState = m.promiseState := rfl
@[simp] theorem invokeIterate_hasDiscard {T : Type} (sc : Scripts T) (m : M T) :
    (invokeIterate sc m).hasDiscard = m.hasDiscard := rfl
@[simp] theorem invokeIterate_condition {T : Type} (sc : Scripts T) (m : M T) :
    (invokeIterate sc m).condition = m.condition := rfl
@[simp] theorem invokeIterate_bodyCalls {T : Type} (sc : Scripts T) (m : M T) :
    (invokeIterate sc m).bodyCalls = m.bodyCalls := rfl
@[simp] theorem invokeIterate_subs {T : Type} (sc : Scripts T) (m : M T) :
    (invokeIterate sc m).subs = m.subs := rfl
@[simp] theorem invokeIterate_discardHooks {T : Type} (sc : Scripts T) (m : M T) :
    (invokeIterate sc m).discardHooks = m.discardHooks := rfl
@[simp] theorem invokeIterate_waiting {T : Type} (sc : Scripts T) (m : M T) :
    (invokeIterate sc m).waiting = m.waiting := rfl

@[simp] theorem invokeBody_condition {T : Type} (sc : Scripts T) (v : T) (m : M T) :
    (invokeBody sc v m).condition = mkFut (sc.bd m.bodyCalls v) := rfl
@[simp] theorem invokeBody_bodyCalls {T : Type} (sc : Scripts T) (v : T) (m : M T) :
    (invokeBody sc v m).bodyCalls = m.bodyCalls + 1 := rfl
@[simp] theorem invokeBody_trace {T : Type} (sc : Scripts T) (v : T) (m : M T) :
    (invokeBody sc v m).trace = m.trace ++ [.bodyCall m.bodyCalls v] := rfl
@[simp] theorem invokeBody_promiseState {T : Type} (sc : Scripts T) (v : T) (m : M T) :
    (invokeBody sc v m).promiseState = m.promiseState := rfl
@[simp] theorem invokeBody_hasDiscard {T : Type} (sc : Scripts T) (v : T) (m : M T) :
    (invokeBody sc v m).hasDiscard = m.hasDiscard := rfl
@[simp] theorem invokeBody_future {T : Type} (sc : Scripts T) (v : T) (m : M T) :
    (invokeBody sc v m).future = m.future := rfl
@[simp] theorem invokeBody_iterateCalls {T : Type} (sc : Scripts T) (v : T) (m : M T) :
    (invokeBody sc v m).iterateCalls = m.iterateCalls := rfl
@[simp] theorem invokeBody_subs {T : Type} (sc : Scripts T) (v : T) (m : M T) :
    (invokeBody sc v m).subs = m.subs := rfl
@[simp] theorem invokeBody_discardHooks {T : Type} (sc : Scripts T) (v : T) (m : M T) :
    (invokeBody sc v m).discardHooks = m.discardHooks := rfl
@[simp] theorem invokeBody_waiting {T : Type} (sc : Scripts T) (v : T) (m : M T) :
    (invokeBody sc v m).waiting = m.waiting := rfl

@[simp] theorem checkDiscardFuture_promiseState {T : Type} (m : M T) :
    (checkDiscardFuture m).promiseState = m.promiseState := by
  unfold checkDiscardFuture; split <;> rfl
@[simp] theorem checkDiscardFuture_hasDiscard {T : Type} (m : M T) :
    (checkDiscardFuture m).hasDiscard = m.hasDiscard := by
  unfold checkDiscardFuture; split <;> rfl
@[simp] theorem checkDiscardFuture_condition {T : Type} (m : M T) :
    (checkDiscardFuture m).condition = m.condition := by
  unfold checkDiscardFuture; split <;> rfl
@[simp] theorem checkDiscardFuture_iterateCalls {T : Type} (m : M T) :
    (checkDiscardFuture m).iterateCalls = m.iterateCalls := by
  unfold checkDiscardFuture; split <;> rfl
@[simp] theorem checkDiscardFuture_bodyCalls {T : Type} (m : M T) :
    (checkDiscardFuture m).bodyCalls = m.bodyCalls := by
  unfold checkDiscardFuture; split <;> rfl
@[simp] theorem checkDiscardFuture_subs {T : Type} (m : M T) :
    (checkDiscardFuture m).subs = m.subs := by
  unfold checkDiscardFuture; split <;> rfl
@[simp] theorem checkDiscardFuture_discardHooks {T : Type} (m : M T) :
    (checkDiscardFuture m).discardHooks = m.discardHooks := by
  unfold checkDiscardFuture; split <;> rfl
@[simp] theorem checkDiscardFuture_waiting {T : Type} (m : M T) :
    (checkDiscardFuture m).waiting = m.waiting := by
  unfold checkDiscardFuture; split <;> rfl
@[simp] theorem checkDiscardFuture_trace {T : Type} (m : M T) :
    (checkDiscardFuture m).trace = m.trace := by
  unfold checkDiscardFuture; split <;> rfl

@[simp] theorem checkDiscardCondition_promiseState {T : Type} (m : M T) :
    (checkDiscardCondition m).promiseState = m.promiseState := by
  unfold checkDiscardCondition; split <;> rfl
@[simp] theorem checkDiscardCondition_hasDiscard {T : Type} (m : M T) :
    (checkDiscardCondition m).hasDiscard = m.hasDiscard := by
  unfold checkDiscardCondition; split <;> rfl
@[simp] theorem checkDiscardCondition_future {T : Type} (m : M T) :
    (checkDiscardCondition m).future = m.future := by
  unfold checkDiscardCondition; split <;> rfl
@[simp] theorem checkDiscardCondition_iterateCalls {T : Type} (m : M T) :
    (checkDiscardCondition m).iterateCalls = m.iterateCalls := by
  unfold checkDiscardCondition; split <;> rfl
@[simp] theorem checkDiscardCondition_bodyCalls {T : Type} (m : M T) :
    (checkDiscardCondition m).bodyCalls = m.bodyCalls := by
  unfold checkDiscardCondition; split <;> rfl
@[simp] theorem checkDiscardCondition_subs {T : Type} (m : M T) :
    (checkDiscardCondition m).subs = m.subs := by
  unfold checkDiscardCondition; split <;> rfl
@[simp] theorem checkDiscardCondition_discardHooks {T : Type} (m : M T) :
    (checkDiscardCondition m).discardHooks = m.discardHooks := by
  unfold checkDiscardCondition; split <;> rfl
@[simp] theorem checkDiscardCondition_waiting {T : Type} (m : M T) :
    (checkDiscardCondition m).waiting = m.waiting := by
  unfold checkDiscardCondition; split <;> rfl
@[simp] theorem checkDiscardCondition_trace {T : Type} (m : M T) :
    (checkDiscardCondition m).trace = m.trace := by
  unfold checkDiscardCondition; split <;> rfl

theorem mkFut_pending {α : Type} {s : FutSpec α} {o : Outcome α} {h r : Bool}
    (hm : mkFut s = .pending o h r) : s.out = o ∧ s.honors = h := by
  unfold mkFut at hm
  split at hm
  · cases hm
  · exact ⟨(FutVal.pending.inj hm).1, (FutVal.pending.inj hm).2.1⟩

theorem mkFut_settled {α : Type} {s : FutSpec α} {o : Outcome α}
    (hm : mkFut s = .settled o) : s.out = o := by
  unfold mkFut at hm
  split at hm
  · exact FutVal.settled.inj hm
  · cases hm

theorem discard_eq_pending {α : Type} {f : FutVal α} {o : Outcome α} {h r : Bool}
    (hm : f.discard = .pending o h r) : ∃ r0, f = .pending o h r0 := by
  cases f with
  | pending o0 h0 r0 =>
    unfold FutVal.discard at hm
    obtain ⟨h1, h2, h3⟩ := FutVal.pending.inj hm
    exact ⟨r0, by rw [h1, h2]⟩
  | settled o0 => cases hm

theorem discard_eq_settled {α : Type} {f : FutVal α} {o : Outcome α}
    (hm : f.discard = .settled o) : f = .settled o := by
  cases f with
  | pending o0 h0 r0 => cases hm
  | settled o0 => exact hm

/-- The state after the body step: new condition future `c`, body counter
advanced, invocation appended to the trace. -/
def afterBody {T : Type} (m : M T) (v : T) (c : FutVal Bool) : M T :=
  { m with
    condition := c
    bodyCalls := m.bodyCalls + 1
    trace := m.trace ++ [.bodyCall m.bodyCalls v] }

/-- Core lemma for the body step: storing a new condition future (appending
the body invocation to the trace) preserves the invariant. -/
theorem inv_setCond {T : Type} {sc : Scripts T} {m : M T} (inv : LoopInv sc m) (v : T)
    (c : FutVal Bool)
    (hw : m.waiting = .none) (hp : m.promiseState = .pending)
    (hic : m.iterateCalls = m.bodyCalls + 1)
    (hf : m.future = .settled (.ready v))
    (hcons : ∀ o h r, c = .pending o h r →
      ∃ k w, (sc.bd k w).out = o ∧ (sc.bd k w).honors = h)
    (hdisc : c = .settled .discarded → BdMayDiscard sc)
    (hpd : m.hasDiscard = true → pendReq c) :
    LoopInv sc (afterBody m v c) := by
  have hlen := inv.traceLen
  refine {
    iterIdx := ?_, bodyIdx := ?_, bodyVal := ?_, traceLen := ?_,
    iterCount := ?_, bodyCount := ?_, futCons := inv.futCons,
    futReady := inv.futReady, futDisc := inv.futDisc,
    condCons := fun o h r hh => Or.inr (hcons o h r hh), condDisc := hdisc,
    discSrc := ?_, discReach := ?_,
    wFut := fun hW => Waiting.noConfusion (hw.symm.trans hW),
    wCond := fun hW => Waiting.noConfusion (hw.symm.trans hW),
    quiet := fun _ => hw, hooks := inv.hooks }
  · intro i k h
    rcases get?_concat _ _ _ _ h with h1 | ⟨hi, hx⟩
    · exact inv.iterIdx i k h1
    · cases hx
  · intro i k w h
    rcases get?_concat _ _ _ _ h with h1 | ⟨hi, hx⟩
    · exact inv.bodyIdx i k w h1
    · have hk := (Ent.bodyCall.inj hx).1
      omega
  · intro i k w h
    rcases get?_concat _ _ _ _ h with h1 | ⟨hi, hx⟩
    · exact inv.bodyVal i k w h1
    · obtain ⟨hk, hv⟩ := Ent.bodyCall.inj hx
      have h2 := inv.futReady v hf
      rw [hic] at h2
      rw [hk, hv]
      simpa using h2.2
  · show (m.trace ++ [Ent.bodyCall m.bodyCalls v]).length = m.iterateCalls + (m.bodyCalls + 1)
    simp only [List.length_append, List.length_singleton]
    omega
  · show countIter (m.trace ++ [Ent.bodyCall m.bodyCalls v]) = m.iterateCalls
    rw [countIter_concat_body, inv.iterCount]
  · show countBody (m.trace ++ [Ent.bodyCall m.bodyCalls v]) = m.bodyCalls + 1
    rw [countBody_concat_body, inv.bodyCount]
  · intro hd
    have hd2 : m.promiseState = PromState.discarded := hd
    rw [hp] at hd2
    cases hd2
  · intro hD
    exact ⟨(inv.discReach hD).1, hpd hD⟩

/-- `loop->condition = loop->body(loop->future.get());` followed by the
discard check preserves the invariant. -/
theorem inv_bodyStep {T : Type} {sc : Scripts T} {m : M T} (inv : LoopInv sc m) (v : T)
    (hw : m.waiting = .none) (hp : m.promiseState = .pending)
    (hic : m.iterateCalls = m.bodyCalls + 1)
    (hf : m.future = .settled (.ready v)) :
    LoopInv sc (checkDiscardCondition (invokeBody sc v m)) := by
  cases hd : m.hasDiscard with
  | false =>
    have he : checkDiscardCondition (invokeBody sc v m) =
        afterBody m v (mkFut (sc.bd m.bodyCalls v)) := by
      unfold checkDiscardCondition invokeBody afterBody
      simp [hd]
    rw [he]
    exact inv_setCond inv v (mkFut (sc.bd m.bodyCalls v)) hw hp hic hf
      (fun o h r hh => ⟨m.bodyCalls, v, mkFut_pending hh⟩)
      (fun hh => ⟨m.bodyCalls, v, Or.inl (mkFut_settled hh)⟩)
      (fun hT => absurd (hd.symm.trans hT) (by simp))
  | true =>
    have he : checkDiscardCondition (invokeBody sc v m) =
        afterBody m v (mkFut (sc.bd m.bodyCalls v)).discard := by
      unfold checkDiscardCondition invokeBody afterBody
      simp [hd]
    rw [he]
    refine inv_setCond inv v _ hw hp hic hf ?_ ?_ (fun _ => pendReq_discard _)
    · intro o h r hh
      obtain ⟨r0, h0⟩ := discard_eq_pending hh
      exact ⟨m.bodyCalls, v, mkFut_pending h0⟩
    · intro hh
      exact ⟨m.bodyCalls, v, Or.inl (mkFut_settled (discard_eq_settled hh))⟩

/-- The state after the iterate step: new `future` slot `c`, iterate counter
advanced, invocation appended to the trace. -/
def afterIter {T : Type} (m : M T) (c : FutVal T) : M T :=
  { m with
    future := c
    iterateCalls := m.iterateCalls + 1
    trace := m.trace ++ [.iter m.iterateCalls] }

/-- Core lemma for the iterate step: storing a new `future` slot (appending
the iterate invocation to the trace) preserves the invariant. -/
theorem inv_setFut {T : Type} {sc : Scripts T} {m : M T} (inv : LoopInv sc m)
    (c : FutVal T)
    (hw : m.waiting = .none) (hp : m.promiseState = .pending)
    (hic : m.iterateCalls = m.bodyCalls)
    (hcons : ∀ o h r, c = .pending o h r →
      (sc.it m.iterateCalls).out = o ∧ (sc.it m.iterateCalls).honors = h)
    (hready : ∀ v, c = .settled (.ready v) → (sc.it m.iterateCalls).out = .ready v)
    (hdisc : c = .settled .discarded → (sc.it m.iterateCalls).out = .discarded)
    (hpd : m.hasDiscard = true → pendReq c) :
    LoopInv sc (afterIter m c) := by
  have hlen := inv.traceLen
  refine {
    iterIdx := ?_, bodyIdx := ?_, bodyVal := ?_, traceLen := ?_,
    iterCount := ?_, bodyCount := ?_, futCons := ?_, futReady := ?_, futDisc := ?_,
    condCons := inv.condCons, condDisc := inv.condDisc,
    discSrc := ?_, discReach := ?_,
    wFut := fun hW => Waiting.noConfusion (hw.symm.trans hW),
    wCond := fun hW => Waiting.noConfusion (hw.symm.trans hW),
    quiet := fun _ => hw, hooks := inv.hooks }
  · intro i k h
    rcases get?_concat _ _ _ _ h with h1 | ⟨hi, hx⟩
    · exact inv.iterIdx i k h1
    · have hk := Ent.iter.inj hx
      omega
  · intro i k w h
    rcases get?_concat _ _ _ _ h with h1 | ⟨hi, hx⟩
    · exact inv.bodyIdx i k w h1
    · cases hx
  · intro i k w h
    rcases get?_concat _ _ _ _ h with h1 | ⟨hi, hx⟩
    · exact inv.bodyVal i k w h1
    · cases hx
  · show (m.trace ++ [Ent.iter m.iterateCalls]).length = m.iterateCalls + 1 + m.bodyCalls
    simp only [List.length_append, List.length_singleton]
    omega
  · show countIter (m.trace ++ [Ent.iter m.iterateCalls]) = m.iterateCalls + 1
    rw [countIter_concat_iter, inv.iterCount]
  · show countBody (m.trace ++ [Ent.iter m.iterateCalls]) = m.bodyCalls
    rw [countBody_concat_iter, inv.bodyCount]
  · intro o h r hh
    have h2 := hcons o h r hh
    refine ⟨?_, ?_, ?_⟩
    · show 1 ≤ m.iterateCalls + 1
      omega
    · show (sc.it (m.iterateCalls + 1 - 1)).out = o
      simpa using h2.1
    · show (sc.it (m.iterateCalls + 1 - 1)).honors = h
      simpa using h2.2
  · intro v hh
    refine ⟨?_, ?_⟩
    · show 1 ≤ m.iterateCalls + 1
      omega
    show (sc.it (m.iterateCalls + 1 - 1)).out = .ready v
    simpa using hready v hh
  · intro hh
    exact ⟨m.iterateCalls, Or.inl (hdisc hh)⟩
  · intro hd
    have hd2 : m.promiseState = PromState.discarded := hd
    rw [hp] at hd2
    cases hd2
  · intro hD
    exact ⟨hpd hD, (inv.discReach hD).2⟩

/-- `loop->future = loop->iterate();` followed by the discard check preserves
the invariant. -/
theorem inv_iterStep {T : Type} {sc : Scripts T} {m : M T} (inv : LoopInv sc m)
    (hw : m.waiting = .none) (hp : m.promiseState = .pending)
    (hic : m.iterateCalls = m.bodyCalls) :
    LoopInv sc (checkDiscardFuture (invokeIterate sc m)) := by
  cases hd : m.hasDiscard with
  | false =>
    have he : checkDiscardFuture (invokeIterate sc m) =
        afterIter m (mkFut (sc.it m.iterateCalls)) := by
      unfold checkDiscardFuture invokeIterate afterIter
      simp [hd]
    rw [he]
    exact inv_setFut inv (mkFut (sc.it m.iterateCalls)) hw hp hic
      (fun o h r hh => mkFut_pending hh)
      (fun v hh => mkFut_settled hh)
      (fun hh => mkFut_settled hh)
      (fun hT => absurd (hd.symm.trans hT) (by simp))
  | true =>
    have he : checkDiscardFuture (invokeIterate sc m) =
        afterIter m (mkFut (sc.it m.iterateCalls)).discard := by
      unfold checkDiscardFuture invokeIterate afterIter
      simp [hd]
    rw [he]
    refine inv_setFut inv _ hw hp hic ?_ ?_ ?_ (fun _ => pendReq_discard _)
    · intro o h r hh
      obtain ⟨r0, h0⟩ := discard_eq_pending hh
      exact mkFut_pending h0
    · intro v hh
      exact mkFut_settled (discard_eq_settled hh)
    · intro hh
      exact mkFut_settled (discard_eq_settled hh)

/-- `loop->promise.set(Nothing())` preserves the invariant. -/
theorem inv_promiseSet {T : Type} {sc : Scripts T} {m : M T} (inv : LoopInv sc m)
    (hw : m.waiting = .none) : LoopInv sc m.promiseSet := by
  unfold M.promiseSet
  split
  · exact {
      iterIdx := inv.iterIdx, bodyIdx := inv.bodyIdx, bodyVal := inv.bodyVal,
      traceLen := inv.traceLen, iterCount := inv.iterCount, bodyCount := inv.bodyCount,
      futCons := inv.futCons, futReady := inv.futReady, futDisc := inv.futDisc,
      condCons := inv.condCons, condDisc := inv.condDisc,
      discSrc := fun hd => PromState.noConfusion hd,
      discReach := inv.discReach,
      wFut := fun hW => (Waiting.noConfusion (hw.symm.trans hW) : _),
      wCond := fun hW => (Waiting.noConfusion (hw.symm.trans hW) : _),
      quiet := fun _ => hw, hooks := inv.hooks }
  · exact inv

/-- `loop->promise.fail(...)` preserves the invariant. -/
theorem inv_promiseFail {T : Type} {sc : Scripts T} {m : M T} (inv : LoopInv sc m)
    (r : String) (hw : m.waiting = .none) : LoopInv sc (m.promiseFail r) := by
  unfold M.promiseFail
  split
  · exact {
      iterIdx := inv.iterIdx, bodyIdx := inv.bodyIdx, bodyVal := inv.bodyVal,
      traceLen := inv.traceLen, iterCount := inv.iterCount, bodyCount := inv.bodyCount,
      futCons := inv.futCons, futReady := inv.futReady, futDisc := inv.futDisc,
      condCons := inv.condCons, condDisc := inv.condDisc,
      discSrc := fun hd => PromState.noConfusion hd,
      discReach := inv.discReach,
      wFut := fun hW => (Waiting.noConfusion (hw.symm.trans hW) : _),
      wCond := fun hW => (Waiting.noConfusion (hw.symm.trans hW) : _),
      quiet := fun _ => hw, hooks := inv.hooks }
  · exact inv

/-- `loop->promise.discard()` preserves the invariant, given that one of the
intermediate futures is settled discarded. -/
theorem inv_promiseDiscard {T : Type} {sc : Scripts T} {m : M T} (inv : LoopInv sc m)
    (hw : m.waiting = .none)
    (hslot : m.future = .settled .discarded ∨ m.condition = .settled .discarded) :
    LoopInv sc m.promiseDiscard := by
  unfold M.promiseDiscard
  split
  · exact {
      iterIdx := inv.iterIdx, bodyIdx := inv.bodyIdx, bodyVal := inv.bodyVal,
      traceLen := inv.traceLen, iterCount := inv.iterCount, bodyCount := inv.bodyCount,
      futCons := inv.futCons, futReady := inv.futReady, futDisc := inv.futDisc,
      condCons := inv.condCons, condDisc := inv.condDisc,
      discSrc := fun _ => hslot,
      discReach := inv.discReach,
      wFut := fun hW => (Waiting.noConfusion (hw.symm.trans hW) : _),
      wCond := fun hW => (Waiting.noConfusion (hw.symm.trans hW) : _),
      quiet := fun _ => hw, hooks := inv.hooks }
  · exact inv

/-- Subscribing the `onAny` continuation to `loop->condition` preserves the
invariant. -/
theorem inv_subCond {T : Type} {sc : Scripts T} {m : M T} (inv : LoopInv sc m)
    (hp : m.promiseState = .pending) (hic : m.iterateCalls = m.bodyCalls) :
    LoopInv sc { m with waiting := .onCondition, subs := m.subs + 1 } :=
  { iterIdx := inv.iterIdx, bodyIdx := inv.bodyIdx, bodyVal := inv.bodyVal,
    traceLen := inv.traceLen, iterCount := inv.iterCount, bodyCount := inv.bodyCount,
    futCons := inv.futCons, futReady := inv.futReady, futDisc := inv.futDisc,
    condCons := inv.condCons, condDisc := inv.condDisc,
    discSrc := inv.discSrc, discReach := inv.discReach,
    wFut := fun hW => Waiting.noConfusion hW,
    wCond := fun _ => hic,
    quiet := fun hne => absurd hp hne,
    hooks := inv.hooks }

/-- Subscribing the `onAny` continuation to `loop->future` preserves the
invariant. -/
theorem inv_subFut {T : Type} {sc : Scripts T} {m : M T} (inv : LoopInv sc m)
    (hp : m.promiseState = .pending) (hic : m.iterateCalls = m.bodyCalls + 1) :
    LoopInv sc { m with waiting := .onFuture, subs := m.subs + 1 } :=
  { iterIdx := inv.iterIdx, bodyIdx := inv.bodyIdx, bodyVal := inv.bodyVal,
    traceLen := inv.traceLen, iterCount := inv.iterCount, bodyCount := inv.bodyCount,
    futCons := inv.futCons, futReady := inv.futReady, futDisc := inv.futDisc,
    condCons := inv.condCons, condDisc := inv.condDisc,
    discSrc := inv.discSrc, discReach := inv.discReach,
    wFut := fun _ => hic,
    wCond := fun hW => Waiting.noConfusion hW,
    quiet := fun hne => absurd hp hne,
    hooks := inv.hooks }

/-- Clearing the waiting slot (done by `pump` just before firing a
continuation) preserves the invariant. -/
theorem inv_clearWaiting {T : Type} {sc : Scripts T} {m : M T} (inv : LoopInv sc m) :
    LoopInv sc { m with waiting := .none } :=
  { iterIdx := inv.iterIdx, bodyIdx := inv.bodyIdx, bodyVal := inv.bodyVal,
    traceLen := inv.traceLen, iterCount := inv.iterCount, bodyCount := inv.bodyCount,
    futCons := inv.futCons, futReady := inv.futReady, futDisc := inv.futDisc,
    condCons := inv.condCons, condDisc := inv.condDisc,
    discSrc := inv.discSrc, discReach := inv.discReach,
    wFut := fun hW => Waiting.noConfusion hW,
    wCond := fun hW => Waiting.noConfusion hW,
    quiet := fun _ => rfl,
    hooks := inv.hooks }

/-- `internal::run` preserves the invariant.  It is entered with no pending
subscription, a pending promise, and the iterate counter one ahead of the
body counter (an iterate invocation has just been issued). -/
theorem run_inv {T : Type} {sc : Scripts T} :
    ∀ (fuel : Nat) {m : M T}, LoopInv sc m → m.waiting = .none →
      m.promiseState = .pending → m.iterateCalls = m.bodyCalls + 1 →
      LoopInv sc (run sc fuel m) := by
  intro fuel
  induction fuel with
  | zero =>
    intro m inv hw hp hic
    simpa only [run] using inv
  | succ f ih =>
    intro m inv hw hp hic
    rcases hF : m.future with ⟨o, hb, rb⟩ | o
    · have he : run sc (f + 1) m = { m with waiting := .onFuture, subs := m.subs + 1 } := by
        simp only [run, hF]
      rw [he]
      exact inv_subFut inv hp hic
    · cases o with
      | ready v =>
        have inv1 := inv_bodyStep inv v hw hp hic hF
        have hw1 : (checkDiscardCondition (invokeBody sc v m)).waiting = Waiting.none := by
          simp [hw]
        have hp1 : (checkDiscardCondition (invokeBody sc v m)).promiseState =
            PromState.pending := by
          simp [hp]
        have hic1 : (checkDiscardCondition (invokeBody sc v m)).iterateCalls =
            (checkDiscardCondition (invokeBody sc v m)).bodyCalls := by
          simp [hic]
        rcases hC : (checkDiscardCondition (invokeBody sc v m)).condition
          with ⟨o2, h2, r2⟩ | o2
        · have he : run sc (f + 1) m = { checkDiscardCondition (invokeBody sc v m) with
              waiting := .onCondition,
              subs := (checkDiscardCondition (invokeBody sc v m)).subs + 1 } := by
            simp only [run, hF, hC]
          rw [he]
          exact inv_subCond inv1 hp1 hic1
        · cases o2 with
          | ready b =>
            cases b with
            | true =>
              have he : run sc (f + 1) m = run sc f (checkDiscardFuture
                  (invokeIterate sc (checkDiscardCondition (invokeBody sc v m)))) := by
                simp only [run, hF, hC]
              rw [he]
              exact ih (inv_iterStep inv1 hw1 hp1 hic1) (by simp [hw]) (by simp [hp])
                (by simp [hic])
            | false =>
              have he : run sc (f + 1) m =
                  (checkDiscardCondition (invokeBody sc v m)).promiseSet := by
                simp only [run, hF, hC]
              rw [he]
              exact inv_promiseSet inv1 hw1
          | failed r2 =>
            have he : run sc (f + 1) m = { checkDiscardCondition (invokeBody sc v m) with
                waiting := .onCondition,
                subs := (checkDiscardCondition (invokeBody sc v m)).subs + 1 } := by
              simp only [run, hF, hC]
            rw [he]
            exact inv_subCond inv1 hp1 hic1
          | discarded =>
            have he : run sc (f + 1) m = { checkDiscardCondition (invokeBody sc v m) with
                waiting := .onCondition,
                subs := (checkDiscardCondition (invokeBody sc v m)).subs + 1 } := by
              simp only [run, hF, hC]
            rw [he]
            exact inv_subCond inv1 hp1 hic1
      | failed r0 =>
        have he : run sc (f + 1) m = { m with waiting := .onFuture, subs := m.subs + 1 } := by
          simp only [run, hF]
        rw [he]
        exact inv_subFut inv hp hic
      | discarded =>
        have he : run sc (f + 1) m = { m with waiting := .onFuture, subs := m.subs + 1 } := by
          simp only [run, hF]
        rw [he]
        exact inv_subFut inv hp hic

/-- The condition continuation preserves the invariant. -/
theorem condK_inv {T : Type} {sc : Scripts T} (f : Nat) {m : M T} (inv : LoopInv sc m)
    (hw : m.waiting = .none) (hp : m.promiseState = .pending)
    (hic : m.iterateCalls = m.bodyCalls) :
    LoopInv sc (condK sc f m) := by
  unfold condK
  split
  next heq =>
    exact run_inv f (inv_iterStep inv hw hp hic) (by simp [hw]) (by simp [hp])
      (by simp [hic])
  next heq => exact inv_promiseSet inv hw
  next r heq => exact inv_promiseFail inv r hw
  next heq => exact inv_promiseDiscard inv hw (Or.inr heq)
  next o hb rb heq => exact inv

/-- The future continuation preserves the invariant. -/
theorem futK_inv {T : Type} {sc : Scripts T} (f : Nat) {m : M T} (inv : LoopInv sc m)
    (hw : m.waiting = .none) (hp : m.promiseState = .pending)
    (hic : m.iterateCalls = m.bodyCalls + 1) :
    LoopInv sc (futK sc f m) := by
  unfold futK
  split
  next v heq => exact run_inv f inv hw hp hic
  next r heq => exact inv_promiseFail inv r hw
  next heq => exact inv_promiseDiscard inv hw (Or.inl heq)
  next o hb rb heq => exact inv

/-- Serialized continuation delivery preserves the invariant. -/
theorem pump_inv {T : Type} {sc : Scripts T} :
    ∀ (f : Nat) {m : M T}, LoopInv sc m → LoopInv sc (pump sc f m) := by
  intro f
  induction f with
  | zero =>
    intro m inv
    simpa only [pump] using inv
  | succ f ih =>
    intro m inv
    rcases hW : m.waiting with _ | _ | _
    · have he : pump sc (f + 1) m = m := by simp only [pump, hW]
      rw [he]
      exact inv
    · have hp : m.promiseState = .pending := by
        by_contra hne
        rw [inv.quiet hne] at hW
        cases hW
      by_cases hS : m.condition.isSettled = true
      · have he : pump sc (f + 1) m =
            pump sc f (condK sc f { m with waiting := .none }) := by
          simp only [pump, hW, hS, if_true]
        rw [he]
        exact ih (condK_inv f (inv_clearWaiting inv) rfl hp (inv.wCond hW))
      · have he : pump sc (f + 1) m = m := by
          simp only [pump, hW]
          rw [if_neg hS]
        rw [he]
        exact inv
    · have hp : m.promiseState = .pending := by
        by_contra hne
        rw [inv.quiet hne] at hW
        cases hW
      by_cases hS : m.future.isSettled = true
      · have he : pump sc (f + 1) m =
            pump sc f (futK sc f { m with waiting := .none }) := by
          simp only [pump, hW, hS, if_true]
        rw [he]
        exact ih (futK_inv f (inv_clearWaiting inv) rfl hp (inv.wFut hW))
      · have he : pump sc (f + 1) m = m := by
          simp only [pump, hW]
          rw [if_neg hS]
        rw [he]
        exact inv

theorem wake_ne_pending {α : Type} (f : FutVal α) (o : Outcome α) (h r : Bool) :
    f.wake ≠ .pending o h r := by
  cases f <;> simp [FutVal.wake]

theorem wake_settled {α : Type} (o : Outcome α) :
    (FutVal.settled o).wake = .settled o := rfl

/-- Waking the condition slot preserves the invariant. -/
theorem inv_condWake {T : Type} {sc : Scripts T} {m : M T} (inv : LoopInv sc m) :
    LoopInv sc { m with condition := m.condition.wake } := by
  refine {
    iterIdx := inv.iterIdx, bodyIdx := inv.bodyIdx, bodyVal := inv.bodyVal,
    traceLen := inv.traceLen, iterCount := inv.iterCount, bodyCount := inv.bodyCount,
    futCons := inv.futCons, futReady := inv.futReady, futDisc := inv.futDisc,
    condCons := ?_, condDisc := ?_, discSrc := ?_, discReach := ?_,
    wFut := inv.wFut, wCond := inv.wCond, quiet := inv.quiet, hooks := inv.hooks }
  · intro o h r hh
    exact absurd hh (wake_ne_pending _ o h r)
  · intro hh
    have hh2 : m.condition.wake = FutVal.settled Outcome.discarded := hh
    rcases hc : m.condition with ⟨o0, h0, r0⟩ | o0
    · rw [hc] at hh2
      unfold FutVal.wake at hh2
      have ho := FutVal.settled.inj hh2
      rcases inv.condCons o0 h0 r0 hc with ⟨hd1, hd2⟩ | ⟨k, w, hk1, hk2⟩
      · exfalso
        rw [hd2] at ho
        simp only [Bool.and_false, if_false] at ho
        rw [hd1] at ho
        cases ho
      · by_cases hb : (r0 && h0) = true
        · refine ⟨k, w, Or.inr ?_⟩
          rw [hk2]
          exact (Bool.and_eq_true r0 h0).mp hb |>.2
        · refine ⟨k, w, Or.inl ?_⟩
          rw [if_neg hb] at ho
          rw [hk1, ← ho]
    · rw [hc] at hh2
      rw [wake_settled] at hh2
      rw [← hc] at hh2
      exact inv.condDisc hh2
  · intro hd
    rcases inv.discSrc hd with h1 | h1
    · exact Or.inl h1
    · refine Or.inr ?_
      show m.condition.wake = FutVal.settled Outcome.discarded
      rw [h1, wake_settled]
  · intro hD
    refine ⟨(inv.discReach hD).1, ?_⟩
    show pendReq m.condition.wake
    cases m.condition <;> simp [FutVal.wake, pendReq]

/-- Waking the future slot preserves the invariant. -/
theorem inv_futWake {T : Type} {sc : Scripts T} {m : M T} (inv : LoopInv sc m) :
    LoopInv sc { m with future := m.future.wake } := by
  refine {
    iterIdx := inv.iterIdx, bodyIdx := inv.bodyIdx, bodyVal := inv.bodyVal,
    traceLen := inv.traceLen, iterCount := inv.iterCount, bodyCount := inv.bodyCount,
    futCons := ?_, futReady := ?_, futDisc := ?_,
    condCons := inv.condCons, condDisc := inv.condDisc,
    discSrc := ?_, discReach := ?_,
    wFut := inv.wFut, wCond := inv.wCond, quiet := inv.quiet, hooks := inv.hooks }
  · intro o h r hh
    exact absurd hh (wake_ne_pending _ o h r)
  · intro v hh
    have hh2 : m.future.wake = FutVal.settled (Outcome.ready v) := hh
    rcases hc : m.future with ⟨o0, h0, r0⟩ | o0
    · rw [hc] at hh2
      unfold FutVal.wake at hh2
      have ho := FutVal.settled.inj hh2
      obtain ⟨h1, h2, h3⟩ := inv.futCons o0 h0 r0 hc
      refine ⟨h1, ?_⟩
      by_cases hb : (r0 && h0) = true
      · rw [if_pos hb] at ho
        cases ho
      · rw [if_neg hb] at ho
        rw [h2, ho]
    · rw [hc] at hh2
      rw [wake_settled] at hh2
      rw [← hc] at hh2
      exact inv.futReady v hh2
  · intro hh
    have hh2 : m.future.wake = FutVal.settled Outcome.discarded := hh
    rcases hc : m.future with ⟨o0, h0, r0⟩ | o0
    · rw [hc] at hh2
      unfold FutVal.wake at hh2
      have ho := FutVal.settled.inj hh2
      obtain ⟨h1, h2, h3⟩ := inv.futCons o0 h0 r0 hc
      by_cases hb : (r0 && h0) = true
      · refine ⟨m.iterateCalls - 1, Or.inr ?_⟩
        rw [h3]
        exact (Bool.and_eq_true r0 h0).mp hb |>.2
      · refine ⟨m.iterateCalls - 1, Or.inl ?_⟩
        rw [if_neg hb] at ho
        rw [h2, ← ho]
    · rw [hc] at hh2
      rw [wake_settled] at hh2
      rw [← hc] at hh2
      exact inv.futDisc hh2
  · intro hd
    rcases inv.discSrc hd with h1 | h1
    · refine Or.inl ?_
      show m.future.wake = FutVal.settled Outcome.discarded
      rw [h1, wake_settled]
    · exact Or.inr h1
  · intro hD
    refine ⟨?_, (inv.discReach hD).2⟩
    show pendReq m.future.wake
    cases m.future <;> simp [FutVal.wake, pendReq]

/-- The wake event preserves the invariant. -/
theorem inv_wakeWaiting {T : Type} {sc : Scripts T} {m : M T} (inv : LoopInv sc m) :
    LoopInv sc (wakeWaiting m) := by
  unfold wakeWaiting
  split
  · exact inv
  · exact inv_condWake inv
  · exact inv_futWake inv

/-- The discard event (root `onDiscard` hook) preserves the invariant. -/
theorem inv_discardOuter {T : Type} {sc : Scripts T} {m : M T} (inv : LoopInv sc m)
    (hp : m.promiseState = .pending) :
    LoopInv sc (rootDiscard { m with hasDiscard := true }) := by
  refine {
    iterIdx := inv.iterIdx, bodyIdx := inv.bodyIdx, bodyVal := inv.bodyVal,
    traceLen := inv.traceLen, iterCount := inv.iterCount, bodyCount := inv.bodyCount,
    futCons := ?_, futReady := ?_, futDisc := ?_,
    condCons := ?_, condDisc := ?_, discSrc := ?_, discReach := ?_,
    wFut := inv.wFut, wCond := inv.wCond, quiet := inv.quiet, hooks := inv.hooks }
  · intro o h r hh
    obtain ⟨r0, h0⟩ := discard_eq_pending hh
    exact inv.futCons o h r0 h0
  · intro v hh
    exact inv.futReady v (discard_eq_settled hh)
  · intro hh
    exact inv.futDisc (discard_eq_settled hh)
  · intro o h r hh
    obtain ⟨r0, h0⟩ := discard_eq_pending hh
    exact inv.condCons o h r0 h0
  · intro hh
    exact inv.condDisc (discard_eq_settled hh)
  · intro hd
    have hd2 : m.promiseState = PromState.discarded := hd
    rw [hp] at hd2
    cases hd2
  · intro _
    exact ⟨pendReq_discard _, pendReq_discard _⟩

/-- Every external event preserves the invariant. -/
theorem applyEvent_inv {T : Type} {sc : Scripts T} (f : Nat) {m : M T}
    (inv : LoopInv sc m) (e : Event) : LoopInv sc (applyEvent sc f m e) := by
  cases e with
  | wake => exact pump_inv f (inv_wakeWaiting inv)
  | discardOuter =>
    simp only [applyEvent]
    split
    next hp => exact inv_discardOuter inv hp
    next hp => exact inv

/-- Invariant of the state right after the bootstrap dispatch has issued the
first `iterate` invocation and its discard check. -/
theorem inv_startCore {T : Type} (sc : Scripts T) (hd : Bool) (fu : FutVal T) (rq : Bool)
    (hfCons : ∀ o h r, fu = .pending o h r → (sc.it 0).out = o ∧ (sc.it 0).honors = h)
    (hfReady : ∀ v, fu = .settled (.ready v) → (sc.it 0).out = .ready v)
    (hfDisc : fu = .settled .discarded → (sc.it 0).out = .discarded)
    (hpd : hd = true → pendReq fu ∧ rq = true) :
    LoopInv sc
      { promiseState := .pending
        hasDiscard := hd
        future := fu
        condition := .pending (.failed "") false rq
        iterateCalls := 1
        bodyCalls := 0
        subs := 0
        discardHooks := 1
        waiting := .none
        trace := [.iter 0] } := by
  refine {
    iterIdx := ?_, bodyIdx := ?_, bodyVal := ?_, traceLen := rfl,
    iterCount := rfl, bodyCount := rfl, futCons := ?_, futReady := ?_, futDisc := ?_,
    condCons := ?_, condDisc := ?_, discSrc := ?_, discReach := ?_,
    wFut := fun hW => Waiting.noConfusion hW,
    wCond := fun hW => Waiting.noConfusion hW,
    quiet := fun _ => rfl, hooks := rfl }
  · intro i k h
    cases i with
    | zero =>
      simp only [List.get?] at h
      have := Ent.iter.inj (Option.some.inj h)
      omega
    | succ j =>
      cases j <;> simp only [List.get?] at h <;> exact Option.noConfusion h
  · intro i k w h
    cases i with
    | zero =>
      simp only [List.get?] at h
      cases Option.some.inj h
    | succ j =>
      cases j <;> simp only [List.get?] at h <;> exact Option.noConfusion h
  · intro i k w h
    cases i with
    | zero =>
      simp only [List.get?] at h
      cases Option.some.inj h
    | succ j =>
      cases j <;> simp only [List.get?] at h <;> exact Option.noConfusion h
  · intro o h r hh
    exact ⟨Nat.le_refl 1, (hfCons o h r hh).1, (hfCons o h r hh).2⟩
  · intro v hh
    exact ⟨Nat.le_refl 1, hfReady v hh⟩
  · intro hh
    exact ⟨0, Or.inl (hfDisc hh)⟩
  · intro o h r hh
    obtain ⟨h1, h2, h3⟩ := FutVal.pending.inj hh
    exact Or.inl ⟨h1.symm, h2.symm⟩
  · intro hh
    cases hh
  · intro hd2
    cases hd2
  · intro hD
    exact ⟨(hpd hD).1, (hpd hD).2⟩

/-- The bootstrap step establishes the invariant. -/
theorem inv_start {T : Type} (sc : Scripts T) (initD : Bool) :
    LoopInv sc (checkDiscardFuture (invokeIterate sc (startState T initD))) := by
  cases initD with
  | false =>
    have he : checkDiscardFuture (invokeIterate sc (startState T false)) =
        { promiseState := .pending
          hasDiscard := false
          future := mkFut (sc.it 0)
          condition := .pending (.failed "") false false
          iterateCalls := 1
          bodyCalls := 0
          subs := 0
          discardHooks := 1
          waiting := .none
          trace := [.iter 0] } := rfl
    rw [he]
    exact inv_startCore sc false (mkFut (sc.it 0)) false
      (fun o h r hh => mkFut_pending hh)
      (fun v hh => mkFut_settled hh)
      (fun hh => mkFut_settled hh)
      (fun hT => Bool.noConfusion hT)
  | true =>
    have he : checkDiscardFuture (invokeIterate sc (startState T true)) =
        { promiseState := .pending
          hasDiscard := true
          future := (mkFut (sc.it 0)).discard
          condition := .pending (.failed "") false true
          iterateCalls := 1
          bodyCalls := 0
          subs := 0
          discardHooks := 1
          waiting := .none
          trace := [.iter 0] } := rfl
    rw [he]
    refine inv_startCore sc true ((mkFut (sc.it 0)).discard) true ?_ ?_ ?_
      (fun _ => ⟨pendReq_discard _, rfl⟩)
    · intro o h r hh
      obtain ⟨r0, h0⟩ := discard_eq_pending hh
      exact mkFut_pending h0
    · intro v hh
      exact mkFut_settled (discard_eq_settled hh)
    · intro hh
      exact mkFut_settled (discard_eq_settled hh)

/-- The invariant holds after bootstrap. -/
theorem boot_inv {T : Type} (sc : Scripts T) (f : Nat) (initD : Bool) :
    LoopInv sc (boot sc f initD) := by
  unfold boot
  refine pump_inv f (run_inv f (inv_start sc initD) ?_ ?_ ?_)
  · cases initD <;> rfl
  · cases initD <;> rfl
  · cases initD <;> rfl

/-- The invariant holds after any execution. -/
theorem foldl_inv {T : Type} (sc : Scripts T) (f : Nat) :
    ∀ (evs : List Event) (m : M T), LoopInv sc m →
      LoopInv sc (List.foldl (applyEvent sc f) m evs) := by
  intro evs
  induction evs with
  | nil =>
    intro m inv
    exact inv
  | cons e evs ih =>
    intro m inv
    exact ih _ (applyEvent_inv f inv e)

/-- The invariant holds after any execution. -/
theorem exec_inv {T : Type} (sc : Scripts T) (f : Nat) (initD : Bool)
    (evs : List Event) : LoopInv sc (execLoop sc f initD evs) := by
  unfold execLoop
  exact foldl_inv sc f evs (boot sc f initD) (boot_inv sc f initD)

theorem pump_none {T : Type} (sc : Scripts T) (f : Nat) (m : M T)
    (hw : m.waiting = .none) : pump sc f m = m := by
  cases f with
  | zero => rfl
  | succ f => simp only [pump, hw]

/-- Once the outer promise is settled (and the driver quiescent), every
external event is a no-op: no state mutation whatsoever. -/
theorem applyEvent_settled {T : Type} (sc : Scripts T) (f : Nat) {m : M T}
    (hw : m.waiting = .none) (hp : m.promiseState ≠ .pending) (e : Event) :
    applyEvent sc f m e = m := by
  cases e with
  | wake =>
    have h1 : wakeWaiting m = m := by
      unfold wakeWaiting
      simp only [hw]
    simp only [applyEvent, h1]
    exact pump_none sc f m hw
  | discardOuter =>
    simp only [applyEvent]
    rw [if_neg hp]

theorem foldl_settled {T : Type} (sc : Scripts T) (f : Nat) :
    ∀ (evs : List Event) (m : M T), m.waiting = .none → m.promiseState ≠ .pending →
      List.foldl (applyEvent sc f) m evs = m := by
  intro evs
  induction evs with
  | nil =>
    intro m _ _
    rfl
  | cons e evs ih =>
    intro m hw hp
    rw [List.foldl_cons, applyEvent_settled sc f hw hp e]
    exact ih m hw hp

/-- A simple terminating script for witnesses: `iterate` returns ready 0,
`body` returns ready false at once. -/
def scOne : Scripts Nat :=
  ⟨fun _ => ⟨true, .ready 0, false⟩, fun _ _ => ⟨true, .ready false, false⟩⟩

/-- C4.  At-most-once settlement: across every execution of a loop instance,
the outer promise transitions at most once from pending to exactly one of
ready, failed, or discarded, and after that settlement the driver performs no
further mutation of the loop state: whatever events are delivered afterwards,
the machine state — promise, `future` and `condition` slots, and the iterate
and body invocation counters — is exactly the state at settlement. -/
theorem loop_at_most_once_settlement {T : Type} (sc : Scripts T) (fuel : Nat)
    (initD : Bool) (events extra : List Event)
    (hs : (execLoop sc fuel initD events).promiseState ≠ .pending) :
    execLoop sc fuel initD (events ++ extra) = execLoop sc fuel initD events := by
  show List.foldl (applyEvent sc fuel) (boot sc fuel initD) (events ++ extra) =
    execLoop sc fuel initD events
  rw [List.foldl_append]
  exact foldl_settled sc fuel extra _ ((exec_inv sc fuel initD events).quiet hs) hs

/-- Witness for C4 at a concrete input. -/
theorem loop_at_most_once_settlement_witness :
    (execLoop scOne 3 false []).promiseState ≠ .pending ∧
      execLoop scOne 3 false ([] ++ [Event.wake]) = execLoop scOne 3 false [] :=
  ⟨by decide, loop_at_most_once_settlement scOne 3 false [] [Event.wake] (by decide)⟩

/-- C5.  Strict alternation: in every execution, the recorded invocation
trace has the k-th `iterate` invocation at position 2k and the k-th `body`
invocation at position 2k+1 (so invocations strictly alternate starting with
`iterate`, and `iterate` is never invoked twice without an intervening `body`
invocation or vice versa), the k-th `body` invocation consumes exactly the
scripted value of the k-th `iterate` future (so `body` runs only once that
future is ready), and the counters equal the number of recorded
invocations. -/
theorem loop_strict_alternation {T : Type} (sc : Scripts T) (fuel : Nat)
    (initD : Bool) (events : List Event) :
    (∀ i k, (execLoop sc fuel initD events).trace.get? i = some (.iter k) →
      i = 2 * k) ∧
    (∀ i k v, (execLoop sc fuel initD events).trace.get? i = some (.bodyCall k v) →
      i = 2 * k + 1 ∧ (sc.it k).out = .ready v) ∧
    countIter (execLoop sc fuel initD events).trace =
      (execLoop sc fuel initD events).iterateCalls ∧
    countBody (execLoop sc fuel initD events).trace =
      (execLoop sc fuel initD events).bodyCalls := by
  have inv := exec_inv sc fuel initD events
  exact ⟨inv.iterIdx, fun i k v h => ⟨inv.bodyIdx i k v h, inv.bodyVal i k v h⟩,
    inv.iterCount, inv.bodyCount⟩

/-- Witness for C5 at a concrete input. -/
theorem loop_strict_alternation_witness :
    (execLoop scOne 3 false []).trace.get? 1 = some (.bodyCall 0 0) ∧
      (1 = 2 * 0 + 1 ∧ (scOne.it 0).out = .ready 0) :=
  ⟨by decide, (loop_strict_alternation scOne 3 false []).2.1 1 0 0 (by decide)⟩

/-- C7.  Discard check at construction instant: in every reachable state, if
a discard has been recorded on the outer future, then every intermediate
future currently held in the `future` or `condition` slot that is still
pending carries a discard request — each construction site checks
`hasDiscard` the instant the new future is stored. -/
theorem loop_discard_check_at_construction {T : Type} (sc : Scripts T) (fuel : Nat)
    (initD : Bool) (events : List Event)
    (hD : (execLoop sc fuel initD events).hasDiscard = true) :
    pendReq (execLoop sc fuel initD events).future ∧
      pendReq (execLoop sc fuel initD events).condition :=
  (exec_inv sc fuel initD events).discReach hD

/-- Script with a pending (never completing unless woken) iterate future. -/
def scAsync : Scripts Nat :=
  ⟨fun _ => ⟨false, .ready 0, false⟩, fun _ _ => ⟨true, .ready false, false⟩⟩

/-- Witness for C7 at a concrete input: a discard recorded before bootstrap
reaches the first (pending) iterate future. -/
theorem loop_discard_check_at_construction_witness :
    (execLoop scAsync 3 true []).hasDiscard = true ∧
      (pendReq (execLoop scAsync 3 true []).future ∧
        pendReq (execLoop scAsync 3 true []).condition) :=
  ⟨by decide, loop_discard_check_at_construction scAsync 3 true [] (by decide)⟩

/-- C8.  Bounded subscription via a single root discard hook: in every
execution, exactly one `onDiscard` callback is registered on the returned
future (at `loop` construction), and no event or iteration ever adds
another. -/
theorem loop_single_discard_hook {T : Type} (sc : Scripts T) (fuel : Nat)
    (initD : Bool) (events : List Event) :
    (execLoop sc fuel initD events).discardHooks = 1 :=
  (exec_inv sc fuel initD events).hooks

/-- Script whose body futures are pending and honor discard requests. -/
def scHonor : Scripts Nat :=
  ⟨fun k => ⟨true, .ready k, false⟩, fun _ _ => ⟨false, .ready true, true⟩⟩

/-- C3.  Discard settlement iff an intermediate future is discarded: if the
outer promise settles discarded then the `future` or `condition` slot holds a
discarded intermediate future; if no iterate or body future can ever become
discarded (scripts neither return discarded futures nor honor discard
requests), the outer promise never settles discarded — a discard recorded on
the returned future alone only forwards requests; and when a pending body
future does honor the forwarded request, the outer promise settles
discarded. -/
theorem loop_discard_settlement {T : Type} (sc : Scripts T) (fuel : Nat)
    (initD : Bool) (events : List Event) :
    ((execLoop sc fuel initD events).promiseState = .discarded →
      (execLoop sc fuel initD events).future = .settled .discarded ∨
        (execLoop sc fuel initD events).condition = .settled .discarded) ∧
    (¬ ItMayDiscard sc → ¬ BdMayDiscard sc →
      (execLoop sc fuel initD events).promiseState ≠ .discarded) ∧
    (execLoop scHonor 10 false [.discardOuter, .wake]).promiseState = .discarded := by
  have inv := exec_inv sc fuel initD events
  refine ⟨inv.discSrc, ?_, by decide⟩
  intro hIt hBd hd
  rcases inv.discSrc hd with h1 | h1
  · exact hIt (inv.futDisc h1)
  · exact hBd (inv.condDisc h1)

/-- Witness for C3 at a concrete input. -/
theorem loop_discard_settlement_witness :
    (execLoop scHonor 10 false [.discardOuter, .wake]).promiseState = .discarded ∧
      ((execLoop scHonor 10 false [.discardOuter, .wake]).future = .settled .discarded ∨
        (execLoop scHonor 10 false [.discardOuter, .wake]).condition =
          .settled .discarded) :=
  ⟨by decide,
    (loop_discard_settlement scHonor 10 false [.discardOuter, .wake]).1 (by decide)⟩

/-- Scripts where every future is returned already settled: `iterate` k
yields ready `vals k`, `body` k yields ready `conds k`. -/
def syncSc {T : Type} (vals : Nat → T) (conds : Nat → Bool) : Scripts T :=
  ⟨fun k => ⟨true, .ready (vals k), false⟩,
   fun k _ => ⟨true, .ready (conds k), false⟩⟩

/-- Trace of a synchronous drain just before the k-th body invocation. -/
def preTrace {T : Type} (vals : Nat → T) : Nat → List (Ent T)
  | 0 => [.iter 0]
  | k + 1 => preTrace vals k ++ [.bodyCall k (vals k), .iter (k + 1)]

/-- Drain state just before the k-th body invocation: the k-th iterate future
is ready in the `future` slot. -/
def mkDrain {T : Type} (vals : Nat → T) (k : Nat) (c : FutVal Bool) (d : Bool) : M T :=
  { promiseState := .pending
    hasDiscard := d
    future := .settled (.ready (vals k))
    condition := c
    iterateCalls := k + 1
    bodyCalls := k
    subs := 0
    discardHooks := 1
    waiting := .none
    trace := preTrace vals k }

/-- Final state of a synchronous n-iteration drain. -/
def finalSync {T : Type} (vals : Nat → T) (n : Nat) (d : Bool) : M T :=
  { promiseState := .ready
    hasDiscard := d
    future := .settled (.ready (vals (n - 1)))
    condition := .settled (.ready false)
    iterateCalls := n
    bodyCalls := n
    subs := 0
    discardHooks := 1
    waiting := .none
    trace := preTrace vals (n - 1) ++ [.bodyCall (n - 1) (vals (n - 1))] }

theorem drain_sync {T : Type} (vals : Nat → T) (conds : Nat → Bool) (n : Nat)
    (hcT : ∀ i, i < n - 1 → conds i = true) (hcF : conds (n - 1) = false) :
    ∀ (j k : Nat) (c : FutVal Bool) (d : Bool) (f : Nat),
      1 ≤ j → k + j = n → j ≤ f →
      run (syncSc vals conds) f (mkDrain vals k c d) = finalSync vals n d := by
  intro j
  induction j with
  | zero =>
    intro k c d f h1 h2 h3
    exact absurd h1 (by omega)
  | succ j ih =>
    intro k c d f h1 h2 h3
    obtain ⟨f0, rfl⟩ : ∃ f0, f = f0 + 1 := ⟨f - 1, by omega⟩
    have hF : (mkDrain vals k c d).future = .settled (.ready (vals k)) := rfl
    have hC : (checkDiscardCondition
        (invokeBody (syncSc vals conds) (vals k) (mkDrain vals k c d))).condition =
        .settled (.ready (conds k)) := by
      cases d <;> rfl
    rcases Nat.eq_zero_or_pos j with hj | hj
    · subst hj
      have hk : k = n - 1 := by omega
      have hCf : (checkDiscardCondition
          (invokeBody (syncSc vals conds) (vals k) (mkDrain vals k c d))).condition =
          .settled (.ready false) := by
        rw [hC, hk, hcF]
      have he : run (syncSc vals conds) (f0 + 1) (mkDrain vals k c d) =
          (checkDiscardCondition
            (invokeBody (syncSc vals conds) (vals k) (mkDrain vals k c d))).promiseSet := by
        simp only [run, hF, hCf]
      rw [he]
      subst hk
      cases d <;>
        simp [M.promiseSet, checkDiscardCondition, invokeBody, mkDrain, syncSc, mkFut,
          FutVal.discard, finalSync, hcF] <;>
        omega
    · have hCt : (checkDiscardCondition
          (invokeBody (syncSc vals conds) (vals k) (mkDrain vals k c d))).condition =
          .settled (.ready true) := by
        rw [hC, hcT k (by omega)]
      have he : run (syncSc vals conds) (f0 + 1) (mkDrain vals k c d) =
          run (syncSc vals conds) f0 (checkDiscardFuture (invokeIterate (syncSc vals conds)
            (checkDiscardCondition
              (invokeBody (syncSc vals conds) (vals k) (mkDrain vals k c d))))) := by
        simp only [run, hF, hCt]
      rw [he]
      have hstate : checkDiscardFuture (invokeIterate (syncSc vals conds)
          (checkDiscardCondition
            (invokeBody (syncSc vals conds) (vals k) (mkDrain vals k c d)))) =
          mkDrain vals (k + 1) (.settled (.ready (conds k))) d := by
        cases d <;> simp [checkDiscardFuture, invokeIterate, checkDiscardCondition,
          invokeBody, mkDrain, syncSc, mkFut, FutVal.discard, preTrace]
      rw [hstate]
      exact ih (k + 1) (.settled (.ready (conds k))) d f0 hj (by omega) (by omega)

/-- A fully synchronous loop completes inside the bootstrap dispatch. -/
theorem boot_sync {T : Type} (vals : Nat → T) (conds : Nat → Bool) (fuel : Nat)
    (d : Bool) (n : Nat) (hn : 1 ≤ n) (hf : n ≤ fuel)
    (hcT : ∀ i, i < n - 1 → conds i = true) (hcF : conds (n - 1) = false) :
    boot (syncSc vals conds) fuel d = finalSync vals n d := by
  unfold boot
  have hstart : checkDiscardFuture (invokeIterate (syncSc vals conds) (startState T d)) =
      mkDrain vals 0 (.pending (.failed "") false d) d := by
    cases d <;> rfl
  rw [hstart]
  rw [drain_sync vals conds n hcT hcF n 0 _ d fuel hn (by omega) hf]
  exact pump_none _ fuel _ rfl

/-- C1.  Termination law: if every `iterate` call returns an already-ready
future and `body` returns ready-true for the first n−1 values and ready-false
for the n-th, the future returned by the loop becomes ready after exactly n
body invocations and exactly n iterate invocations. -/
theorem loop_termination_law {T : Type} (n : Nat) (vals : Nat → T)
    (conds : Nat → Bool) (fuel : Nat) (hn : 1 ≤ n) (hf : n ≤ fuel)
    (hcT : ∀ i, i < n - 1 → conds i = true) (hcF : conds (n - 1) = false) :
    (execLoop (syncSc vals conds) fuel false []).promiseState = .ready ∧
      (execLoop (syncSc vals conds) fuel false []).bodyCalls = n ∧
      (execLoop (syncSc vals conds) fuel false []).iterateCalls = n := by
  have hb : execLoop (syncSc vals conds) fuel false [] = finalSync vals n false := by
    show boot (syncSc vals conds) fuel false = finalSync vals n false
    exact boot_sync vals conds fuel false n hn hf hcT hcF
  rw [hb]
  exact ⟨rfl, rfl, rfl⟩

/-- Witness for C1: the S1 counting loop (n = 5). -/
theorem loop_termination_law_witness :
    (execLoop (syncSc (fun k => k) (fun k => decide (k < 4))) 10 false []).promiseState =
        .ready ∧
      (execLoop (syncSc (fun k => k) (fun k => decide (k < 4))) 10 false []).bodyCalls = 5 ∧
      (execLoop (syncSc (fun k => k) (fun k => decide (k < 4))) 10 false
          []).iterateCalls = 5 :=
  loop_termination_law 5 (fun k => k) (fun k => decide (k < 4)) 10 (by decide) (by decide)
    (fun i hi => decide_eq_true (by omega)) (by decide)

/-- C6.  Stackless synchronous drain: when every intermediate future is
already ready at the moment the driver examines it, all n iterations are
advanced inside the single bootstrap invocation of `run` as a plain
iteration: the loop settles ready with zero `onAny` continuation
subscriptions created (hence no deferred re-entry and no per-iteration
continuation allocation during the drain). -/
theorem loop_sync_drain_stackless {T : Type} (n : Nat) (vals : Nat → T)
    (conds : Nat → Bool) (fuel : Nat) (hn : 1 ≤ n) (hf : n ≤ fuel)
    (hcT : ∀ i, i < n - 1 → conds i = true) (hcF : conds (n - 1) = false) :
    (execLoop (syncSc vals conds) fuel false []).subs = 0 ∧
      (execLoop (syncSc vals conds) fuel false []).waiting = .none ∧
      (execLoop (syncSc vals conds) fuel false []).promiseState = .ready ∧
      (execLoop (syncSc vals conds) fuel false []).bodyCalls = n := by
  have hb : execLoop (syncSc vals conds) fuel false [] = finalSync vals n false := by
    show boot (syncSc vals conds) fuel false = finalSync vals n false
    exact boot_sync vals conds fuel false n hn hf hcT hcF
  rw [hb]
  exact ⟨rfl, rfl, rfl, rfl⟩

/-- Witness for C6 at n = 5. -/
theorem loop_sync_drain_stackless_witness :
    (execLoop (syncSc (fun k => k) (fun k => decide (k < 4))) 10 false []).subs = 0 ∧
      (execLoop (syncSc (fun k => k) (fun k => decide (k < 4))) 10 false []).waiting =
        .none ∧
      (execLoop (syncSc (fun k => k) (fun k => decide (k < 4))) 10 false
          []).promiseState = .ready ∧
      (execLoop (syncSc (fun k => k) (fun k => decide (k < 4))) 10 false []).bodyCalls =
        5 :=
  loop_sync_drain_stackless 5 (fun k => k) (fun k => decide (k < 4)) 10 (by decide)
    (by decide) (fun i hi => decide_eq_true (by omega)) (by decide)

/-- C10.  Ready-false beats a recorded discard: a discard is recorded on the
returned future (before bootstrap), every intermediate future is returned
already settled, and the final body condition is already ready-false when the
driver examines it — the forwarded discard requests are no-ops on settled
futures, so the outer promise settles ready, not discarded, and the recorded
discard request (still visible in `hasDiscard`) is never reflected in the
returned future's terminal state. -/
theorem loop_ready_false_beats_discard {T : Type} (n : Nat) (vals : Nat → T)
    (conds : Nat → Bool) (fuel : Nat) (hn : 1 ≤ n) (hf : n ≤ fuel)
    (hcT : ∀ i, i < n - 1 → conds i = true) (hcF : conds (n - 1) = false) :
    (execLoop (syncSc vals conds) fuel true []).hasDiscard = true ∧
      (execLoop (syncSc vals conds) fuel true []).promiseState = .ready := by
  have hb : execLoop (syncSc vals conds) fuel true [] = finalSync vals n true := by
    show boot (syncSc vals conds) fuel true = finalSync vals n true
    exact boot_sync vals conds fuel true n hn hf hcT hcF
  rw [hb]
  exact ⟨rfl, rfl⟩

/-- Witness for C10 at n = 1. -/
theorem loop_ready_false_beats_discard_witness :
    (execLoop (syncSc (fun k => k) (fun _ => false)) 3 true []).hasDiscard = true ∧
      (execLoop (syncSc (fun k => k) (fun _ => false)) 3 true []).promiseState = .ready :=
  loop_ready_false_beats_discard 1 (fun k => k) (fun _ => false) 3 (by decide) (by decide)
    (fun i hi => absurd hi (by omega)) rfl

/-- Scripts where the kf-th `iterate` invocation returns an already-failed
future (reason `r`) and every other future is returned ready; `body` always
returns ready-true. -/
def itFailSc {T : Type} (vals : Nat → T) (kf : Nat) (r : String) : Scripts T :=
  ⟨fun k => if k = kf then ⟨true, .failed r, false⟩ else ⟨true, .ready (vals k), false⟩,
   fun _ _ => ⟨true, .ready true, false⟩⟩

/-- State right after the failing iterate future has been stored and the
driver has subscribed its `onAny` continuation to it. -/
def failIterSub {T : Type} (vals : Nat → T) (kf : Nat) (r : String)
    (c : FutVal Bool) : M T :=
  { promiseState := .pending
    hasDiscard := false
    future := .settled (.failed r)
    condition := c
    iterateCalls := kf + 1
    bodyCalls := kf
    subs := 1
    discardHooks := 1
    waiting := .onFuture
    trace := preTrace vals kf }

/-- Terminal state of a loop whose kf-th iterate future failed. -/
def failIterFinal {T : Type} (vals : Nat → T) (kf : Nat) (r : String)
    (c : FutVal Bool) : M T :=
  { promiseState := .failed r
    hasDiscard := false
    future := .settled (.failed r)
    condition := c
    iterateCalls := kf + 1
    bodyCalls := kf
    subs := 1
    discardHooks := 1
    waiting := .none
    trace := preTrace vals kf }


theorem run_itFail {T : Type} (vals : Nat → T) (kf : Nat) (r : String) :
    ∀ (j k : Nat) (c : FutVal Bool) (f : Nat), k + j + 1 = kf → j + 2 ≤ f →
      run (itFailSc vals kf r) f (mkDrain vals k c false) =
        failIterSub vals kf r (.settled (.ready true)) := by
  intro j
  induction j with
  | zero =>
    intro k c f hk hfl
    obtain ⟨f1, rfl⟩ : ∃ f1, f = f1 + 1 + 1 := ⟨f - 2, by omega⟩
    have hF : (mkDrain vals k c false).future = .settled (.ready (vals k)) := rfl
    have hC : (checkDiscardCondition
        (invokeBody (itFailSc vals kf r) (vals k) (mkDrain vals k c false))).condition =
        .settled (.ready true) := rfl
    have he : run (itFailSc vals kf r) (f1 + 1 + 1) (mkDrain vals k c false) =
        run (itFailSc vals kf r) (f1 + 1)
          (checkDiscardFuture (invokeIterate (itFailSc vals kf r)
            (checkDiscardCondition
              (invokeBody (itFailSc vals kf r) (vals k) (mkDrain vals k c false))))) := by
      simp only [run, hF, hC]
    rw [he]
    have hstate : checkDiscardFuture (invokeIterate (itFailSc vals kf r)
        (checkDiscardCondition
          (invokeBody (itFailSc vals kf r) (vals k) (mkDrain vals k c false)))) =
        { promiseState := .pending
          hasDiscard := false
          future := .settled (.failed r)
          condition := .settled (.ready true)
          iterateCalls := kf + 1
          bodyCalls := kf
          subs := 0
          discardHooks := 1
          waiting := .none
          trace := preTrace vals kf } := by
      have hk1 : k + 1 = kf := by omega
      subst hk1
      simp [checkDiscardFuture, invokeIterate, checkDiscardCondition, invokeBody,
        itFailSc, mkFut, mkDrain, preTrace, List.append_assoc]
    rw [hstate]
    have he2 : run (itFailSc vals kf r) (f1 + 1)
        { promiseState := .pending
          hasDiscard := false
          future := .settled (.failed r)
          condition := .settled (.ready true)
          iterateCalls := kf + 1
          bodyCalls := kf
          subs := 0
          discardHooks := 1
          waiting := .none
          trace := preTrace vals kf } =
        failIterSub vals kf r (.settled (.ready true)) := by
      simp only [run]
      rfl
    exact he2
  | succ j ih =>
    intro k c f hk hfl
    obtain ⟨f0, rfl⟩ : ∃ f0, f = f0 + 1 := ⟨f - 1, by omega⟩
    have hF : (mkDrain vals k c false).future = .settled (.ready (vals k)) := rfl
    have hC : (checkDiscardCondition
        (invokeBody (itFailSc vals kf r) (vals k) (mkDrain vals k c false))).condition =
        .settled (.ready true) := rfl
    have he : run (itFailSc vals kf r) (f0 + 1) (mkDrain vals k c false) =
        run (itFailSc vals kf r) f0
          (checkDiscardFuture (invokeIterate (itFailSc vals kf r)
            (checkDiscardCondition
              (invokeBody (itFailSc vals kf r) (vals k) (mkDrain vals k c false))))) := by
      simp only [run, hF, hC]
    rw [he]
    have hne : ¬(k + 1 = kf) := by omega
    have hstate : checkDiscardFuture (invokeIterate (itFailSc vals kf r)
        (checkDiscardCondition
          (invokeBody (itFailSc vals kf r) (vals k) (mkDrain vals k c false)))) =
        mkDrain vals (k + 1) (.settled (.ready true)) false := by
      simp [checkDiscardFuture, invokeIterate, checkDiscardCondition, invokeBody,
        itFailSc, mkFut, mkDrain, preTrace, List.append_assoc, hne]
    rw [hstate]
    exact ih (k + 1) (.settled (.ready true)) f0 (by omega) (by omega)

theorem pump_itFail {T : Type} (vals : Nat → T) (kf : Nat) (r : String)
    (c : FutVal Bool) (f : Nat) (hf : 1 ≤ f) :
    pump (itFailSc vals kf r) f (failIterSub vals kf r c) =
      failIterFinal vals kf r c := by
  obtain ⟨f0, rfl⟩ : ∃ f0, f = f0 + 1 := ⟨f - 1, by omega⟩
  have h1 : pump (itFailSc vals kf r) (f0 + 1) (failIterSub vals kf r c) =
      pump (itFailSc vals kf r) f0 (futK (itFailSc vals kf r) f0
        { failIterSub vals kf r c with waiting := .none }) := rfl
  have h2 : futK (itFailSc vals kf r) f0
      { failIterSub vals kf r c with waiting := .none } =
      failIterFinal vals kf r c := rfl
  rw [h1, h2]
  exact pump_none _ f0 _ rfl

/-- Bootstrap-and-drain for a loop whose kf-th iterate future fails,
kf ≥ 1. -/
theorem boot_itFail {T : Type} (vals : Nat → T) (kf : Nat) (r : String) (fuel : Nat)
    (hkf : 1 ≤ kf) (hf : kf + 2 ≤ fuel) :
    boot (itFailSc vals kf r) fuel false =
      failIterFinal vals kf r (.settled (.ready true)) := by
  unfold boot
  have h0 : ¬((0 : Nat) = kf) := by omega
  have hstart : checkDiscardFuture (invokeIterate (itFailSc vals kf r)
      (startState T false)) =
      mkDrain vals 0 (.pending (.failed "") false false) false := by
    simp [checkDiscardFuture, invokeIterate, startState, itFailSc, mkFut, mkDrain,
      preTrace, h0]
  rw [hstart]
  rw [run_itFail vals kf r (kf - 1) 0 _ fuel (by omega) (by omega)]
  exact pump_itFail vals kf r _ fuel (by omega)

/-- Bootstrap for a loop whose very first iterate future fails. -/
theorem boot_itFail0 {T : Type} (vals : Nat → T) (r : String) (fuel : Nat)
    (hf : 2 ≤ fuel) :
    boot (itFailSc vals 0 r) fuel false =
      failIterFinal vals 0 r (.pending (.failed "") false false) := by
  obtain ⟨f0, rfl⟩ : ∃ f0, fuel = f0 + 1 := ⟨fuel - 1, by omega⟩
  unfold boot
  have hstart : checkDiscardFuture (invokeIterate (itFailSc vals 0 r)
      (startState T false)) =
      { promiseState := .pending
        hasDiscard := false
        future := .settled (.failed r)
        condition := .pending (.failed "") false false
        iterateCalls := 1
        bodyCalls := 0
        subs := 0
        discardHooks := 1
        waiting := .none
        trace := [.iter 0] } := rfl
  rw [hstart]
  have hrun : run (itFailSc vals 0 r) (f0 + 1)
      { promiseState := .pending
        hasDiscard := false
        future := .settled (.failed r)
        condition := .pending (.failed "") false false
        iterateCalls := 1
        bodyCalls := 0
        subs := 0
        discardHooks := 1
        waiting := .none
        trace := [.iter 0] } =
      failIterSub vals 0 r (.pending (.failed "") false false) := by
    simp only [run]
    rfl
  rw [hrun]
  exact pump_itFail vals 0 r _ (f0 + 1) (by omega)

/-- Scripts where the kf-th `body` invocation returns an already-failed
future (reason `r`); every iterate future is ready and every other body
future is ready-true. -/
def bdFailSc {T : Type} (vals : Nat → T) (kf : Nat) (r : String) : Scripts T :=
  ⟨fun k => ⟨true, .ready (vals k), false⟩,
   fun k _ => if k = kf then ⟨true, .failed r, false⟩ else ⟨true, .ready true, false⟩⟩

/-- State right after the failing body future has been stored and the driver
has subscribed its `onAny` continuation to it. -/
def failBodySub {T : Type} (vals : Nat → T) (kf : Nat) (r : String) : M T :=
  { promiseState := .pending
    hasDiscard := false
    future := .settled (.ready (vals kf))
    condition := .settled (.failed r)
    iterateCalls := kf + 1
    bodyCalls := kf + 1
    subs := 1
    discardHooks := 1
    waiting := .onCondition
    trace := preTrace vals kf ++ [.bodyCall kf (vals kf)] }

/-- Terminal state of a loop whose kf-th body future failed. -/
def failBodyFinal {T : Type} (vals : Nat → T) (kf : Nat) (r : String) : M T :=
  { promiseState := .failed r
    hasDiscard := false
    future := .settled (.ready (vals kf))
    condition := .settled (.failed r)
    iterateCalls := kf + 1
    bodyCalls := kf + 1
    subs := 1
    discardHooks := 1
    waiting := .none
    trace := preTrace vals kf ++ [.bodyCall kf (vals kf)] }

theorem run_bdFail {T : Type} (vals : Nat → T) (kf : Nat) (r : String) :
    ∀ (j k : Nat) (c : FutVal Bool) (f : Nat), k + j = kf → j + 1 ≤ f →
      run (bdFailSc vals kf r) f (mkDrain vals k c false) =
        failBodySub vals kf r := by
  intro j
  induction j with
  | zero =>
    intro k c f hk hfl
    obtain ⟨f0, rfl⟩ : ∃ f0, f = f0 + 1 := ⟨f - 1, by omega⟩
    have hk0 : k = kf := by omega
    subst hk0
    have hF : (mkDrain vals k c false).future = .settled (.ready (vals k)) := rfl
    have hC : (checkDiscardCondition
        (invokeBody (bdFailSc vals k r) (vals k) (mkDrain vals k c false))).condition =
        .settled (.failed r) := by
      simp [checkDiscardCondition, invokeBody, bdFailSc, mkFut, mkDrain]
    have he : run (bdFailSc vals k r) (f0 + 1) (mkDrain vals k c false) =
        { checkDiscardCondition
            (invokeBody (bdFailSc vals k r) (vals k) (mkDrain vals k c false)) with
          waiting := .onCondition,
          subs := (checkDiscardCondition
            (invokeBody (bdFailSc vals k r) (vals k) (mkDrain vals k c false))).subs + 1 } := by
      simp only [run, hF, hC]
    rw [he]
    have hc2 : checkDiscardCondition
        (invokeBody (bdFailSc vals k r) (vals k) (mkDrain vals k c false)) =
        { mkDrain vals k c false with
          condition := .settled (.failed r)
          bodyCalls := k + 1
          trace := preTrace vals k ++ [.bodyCall k (vals k)] } := by
      simp [checkDiscardCondition, invokeBody, bdFailSc, mkFut, mkDrain]
    rw [hc2]
    rfl
  | succ j ih =>
    intro k c f hk hfl
    obtain ⟨f0, rfl⟩ : ∃ f0, f = f0 + 1 := ⟨f - 1, by omega⟩
    have hne : ¬(k = kf) := by omega
    have hF : (mkDrain vals k c false).future = .settled (.ready (vals k)) := rfl
    have hC : (checkDiscardCondition
        (invokeBody (bdFailSc vals kf r) (vals k) (mkDrain vals k c false))).condition =
        .settled (.ready true) := by
      simp [checkDiscardCondition, invokeBody, bdFailSc, mkFut, mkDrain, hne]
    have he : run (bdFailSc vals kf r) (f0 + 1) (mkDrain vals k c false) =
        run (bdFailSc vals kf r) f0
          (checkDiscardFuture (invokeIterate (bdFailSc vals kf r)
            (checkDiscardCondition
              (invokeBody (bdFailSc vals kf r) (vals k) (mkDrain vals k c false))))) := by
      simp only [run, hF, hC]
    rw [he]
    have hstate : checkDiscardFuture (invokeIterate (bdFailSc vals kf r)
        (checkDiscardCondition
          (invokeBody (bdFailSc vals kf r) (vals k) (mkDrain vals k c false)))) =
        mkDrain vals (k + 1) (.settled (.ready true)) false := by
      simp [checkDiscardFuture, invokeIterate, checkDiscardCondition, invokeBody,
        bdFailSc, mkFut, mkDrain, preTrace, List.append_assoc, hne]
    rw [hstate]
    exact ih (k + 1) (.settled (.ready true)) f0 (by omega) (by omega)

theorem pump_bdFail {T : Type} (vals : Nat → T) (kf : Nat) (r : String)
    (f : Nat) (hf : 1 ≤ f) :
    pump (bdFailSc vals kf r) f (failBodySub vals kf r) = failBodyFinal vals kf r := by
  obtain ⟨f0, rfl⟩ : ∃ f0, f = f0 + 1 := ⟨f - 1, by omega⟩
  have h1 : pump (bdFailSc vals kf r) (f0 + 1) (failBodySub vals kf r) =
      pump (bdFailSc vals kf r) f0 (condK (bdFailSc vals kf r) f0
        { failBodySub vals kf r with waiting := .none }) := rfl
  have h2 : condK (bdFailSc vals kf r) f0
      { failBodySub vals kf r with waiting := .none } = failBodyFinal vals kf r := rfl
  rw [h1, h2]
  exact pump_none _ f0 _ rfl

/-- Bootstrap-and-drain for a loop whose kf-th body future fails. -/
theorem boot_bdFail {T : Type} (vals : Nat → T) (kf : Nat) (r : String) (fuel : Nat)
    (hf : kf + 2 ≤ fuel) :
    boot (bdFailSc vals kf r) fuel false = failBodyFinal vals kf r := by
  unfold boot
  have hstart : checkDiscardFuture (invokeIterate (bdFailSc vals kf r)
      (startState T false)) =
      mkDrain vals 0 (.pending (.failed "") false false) false := rfl
  rw [hstart]
  rw [run_bdFail vals kf r kf 0 _ fuel (by omega) (by omega)]
  exact pump_bdFail vals kf r fuel (by omega)

/-- C2.  Failure propagation: if the k-th future produced by `iterate`
fails with reason r, the loop's returned future fails with the same reason r
after exactly k iterate invocations and k−1 body invocations, and no further
body or iterate invocation ever occurs (every later event leaves the state
untouched); likewise, if the k-th future produced by `body` fails with
reason r, the returned future fails with reason r after exactly k iterate and
k body invocations and no further invocations occur. -/
theorem loop_failure_propagation {T : Type} (k : Nat) (r : String) (vals : Nat → T)
    (fuel : Nat) (hk : 1 ≤ k) (hf : k + 2 ≤ fuel) :
    ((execLoop (itFailSc vals (k - 1) r) fuel false []).promiseState = .failed r ∧
      (execLoop (itFailSc vals (k - 1) r) fuel false []).iterateCalls = k ∧
      (execLoop (itFailSc vals (k - 1) r) fuel false []).bodyCalls = k - 1 ∧
      ∀ extra, execLoop (itFailSc vals (k - 1) r) fuel false extra =
        execLoop (itFailSc vals (k - 1) r) fuel false []) ∧
    ((execLoop (bdFailSc vals (k - 1) r) fuel false []).promiseState = .failed r ∧
      (execLoop (bdFailSc vals (k - 1) r) fuel false []).iterateCalls = k ∧
      (execLoop (bdFailSc vals (k - 1) r) fuel false []).bodyCalls = k ∧
      ∀ extra, execLoop (bdFailSc vals (k - 1) r) fuel false extra =
        execLoop (bdFailSc vals (k - 1) r) fuel false []) := by
  have hbit : boot (itFailSc vals (k - 1) r) fuel false =
      failIterFinal vals (k - 1) r
        (if k = 1 then .pending (.failed "") false false
          else .settled (.ready true)) := by
    by_cases h1 : k = 1
    · rw [if_pos h1]
      have h0 : k - 1 = 0 := by omega
      rw [h0]
      exact boot_itFail0 vals r fuel (by omega)
    · rw [if_neg h1]
      exact boot_itFail vals (k - 1) r fuel (by omega) (by omega)
  have hbbd : boot (bdFailSc vals (k - 1) r) fuel false = failBodyFinal vals (k - 1) r :=
    boot_bdFail vals (k - 1) r fuel (by omega)
  constructor
  · refine ⟨?_, ?_, ?_, ?_⟩
    · show (boot (itFailSc vals (k - 1) r) fuel false).promiseState = .failed r
      rw [hbit]
      rfl
    · show (boot (itFailSc vals (k - 1) r) fuel false).iterateCalls = k
      rw [hbit]
      show k - 1 + 1 = k
      omega
    · show (boot (itFailSc vals (k - 1) r) fuel false).bodyCalls = k - 1
      rw [hbit]
      rfl
    · intro extra
      show List.foldl (applyEvent (itFailSc vals (k - 1) r) fuel)
        (boot (itFailSc vals (k - 1) r) fuel false) extra =
        execLoop (itFailSc vals (k - 1) r) fuel false []
      rw [hbit, foldl_settled _ fuel extra _ rfl (fun h => PromState.noConfusion h)]
      exact hbit.symm
  · refine ⟨?_, ?_, ?_, ?_⟩
    · show (boot (bdFailSc vals (k - 1) r) fuel false).promiseState = .failed r
      rw [hbbd]
      rfl
    · show (boot (bdFailSc vals (k - 1) r) fuel false).iterateCalls = k
      rw [hbbd]
      show k - 1 + 1 = k
      omega
    · show (boot (bdFailSc vals (k - 1) r) fuel false).bodyCalls = k
      rw [hbbd]
      show k - 1 + 1 = k
      omega
    · intro extra
      show List.foldl (applyEvent (bdFailSc vals (k - 1) r) fuel)
        (boot (bdFailSc vals (k - 1) r) fuel false) extra =
        execLoop (bdFailSc vals (k - 1) r) fuel false []
      rw [hbbd, foldl_settled _ fuel extra _ rfl (fun h => PromState.noConfusion h)]
      exact hbbd.symm

/-- Witness for C2: the S4 scenario (iterate fails on the 2nd call with
reason "gone") and the corresponding body-failure scenario. -/
theorem loop_failure_propagation_witness :
    ((execLoop (itFailSc (fun i => i) (2 - 1) "gone") 10 false []).promiseState =
        .failed "gone" ∧
      (execLoop (itFailSc (fun i => i) (2 - 1) "gone") 10 false []).iterateCalls = 2 ∧
      (execLoop (itFailSc (fun i => i) (2 - 1) "gone") 10 false []).bodyCalls = 2 - 1 ∧
      ∀ extra, execLoop (itFailSc (fun i => i) (2 - 1) "gone") 10 false extra =
        execLoop (itFailSc (fun i => i) (2 - 1) "gone") 10 false []) ∧
    ((execLoop (bdFailSc (fun i => i) (2 - 1) "gone") 10 false []).promiseState =
        .failed "gone" ∧
      (execLoop (bdFailSc (fun i => i) (2 - 1) "gone") 10 false []).iterateCalls = 2 ∧
      (execLoop (bdFailSc (fun i => i) (2 - 1) "gone") 10 false []).bodyCalls = 2 ∧
      ∀ extra, execLoop (bdFailSc (fun i => i) (2 - 1) "gone") 10 false extra =
        execLoop (bdFailSc (fun i => i) (2 - 1) "gone") 10 false []) :=
  loop_failure_propagation 2 "gone" (fun i => i) 10 (by decide) (by decide)

/-- Actions the convenience wrapper performs on its anonymous actor
(`new ProcessBase(); spawn(...)` and the cleanup
`terminate(process); wait(process); delete process;`). -/
inductive WrapAct where
  | spawn
  | terminate
  | wait
  | delete
deriving DecidableEq, Repr

/-- The cleanup continuation the wrapper attaches with `onAny`: it is wrapped
in `defer` (it runs as a freshly posted task, never inline in the execution
that observed settlement) and, when it runs, terminates, waits on, and
deletes the spawned actor, in that order. -/
structure WrapperCleanup where
  viaDefer : Bool
  actions : List WrapAct
deriving DecidableEq, Repr

/-- The `onAny` argument of the pid-less `loop(iterate, body)` wrapper. -/
def wrapperOnAny : WrapperCleanup :=
  { viaDefer := true, actions := [.terminate, .wait, .delete] }

/-- Result of the pid-less wrapper: the inner loop state plus the anonymous
actor's lifecycle log. -/
structure Wrapped (T : Type) where
  inner : M T
  log : List WrapAct
deriving DecidableEq, Repr

/-- `loop(iterate, body)`: spawn a fresh anonymous actor, run the primary
loop on it, and let the attached `onAny` cleanup fire exactly when the
returned future reaches a terminal state. -/
def loopNoPid {T : Type} (sc : Scripts T) (fuel : Nat) (initD : Bool)
    (events : List Event) : Wrapped T :=
  { inner := execLoop sc fuel initD events
    log := [WrapAct.spawn] ++
      (if (execLoop sc fuel initD events).promiseState = .pending then []
        else wrapperOnAny.actions) }

/-- C9.  Convenience-wrapper cleanup: `loop(iterate, body)` spawns a fresh
anonymous actor and runs the primary loop on it; its cleanup continuation is
attached deferred (via `defer`, never run inline in the execution observing
settlement); on every terminal settlement of the returned future (ready,
failed, or discarded) the cleanup terminates, waits on, and deletes that
actor, in that order; while the returned future is pending the actor is
untouched after spawn. -/
theorem loop_wrapper_cleanup {T : Type} (sc : Scripts T) (fuel : Nat) (initD : Bool)
    (events : List Event) :
    (loopNoPid sc fuel initD events).inner = execLoop sc fuel initD events ∧
      wrapperOnAny.viaDefer = true ∧
      ((loopNoPid sc fuel initD events).inner.promiseState ≠ .pending →
        (loopNoPid sc fuel initD events).log =
          [.spawn, .terminate, .wait, .delete]) ∧
      ((loopNoPid sc fuel initD events).inner.promiseState = .pending →
        (loopNoPid sc fuel initD events).log = [.spawn]) := by
  refine ⟨rfl, rfl, ?_, ?_⟩
  · intro h
    have h2 : (execLoop sc fuel initD events).promiseState ≠ .pending := h
    show [WrapAct.spawn] ++
      (if (execLoop sc fuel initD events).promiseState = .pending then []
        else wrapperOnAny.actions) = [.spawn, .terminate, .wait, .delete]
    rw [if_neg h2]
    rfl
  · intro h
    have h2 : (execLoop sc fuel initD events).promiseState = .pending := h
    show [WrapAct.spawn] ++
      (if (execLoop sc fuel initD events).promiseState = .pending then []
        else wrapperOnAny.actions) = [.spawn]
    rw [if_pos h2]
    rfl

/-- Witness for C9: the wrapper around a loop that settles ready reaps its
actor. -/
theorem loop_wrapper_cleanup_witness :
    (loopNoPid scOne 3 false []).inner.promiseState ≠ .pending ∧
      (loopNoPid scOne 3 false []).log = [.spawn, .terminate, .wait, .delete] :=
  ⟨by decide, (loop_wrapper_cleanup scOne 3 false []).2.2.1 (by decide)⟩
